import Mathlib

/-!
# MAVLink inspector: aggregation, draining, sorting and rendering

A shallow embedding of `src/src/inspector.h` and `src/src/inspector.cpp`.

* `mavlink_message_t`, `mavlink_field_info_t` and `mavlink_message_info_t` are the
  structures of the MAVLink C library that the inspector reads.
* `std::map<uint32_t, MessageInfo>` is a list of key/value pairs kept in ascending key
  order; iteration walks the list from its head.
* `int` values are integers reduced to the two's-complement range of 32 bits after every
  arithmetic step (signed overflow is undefined in C++; the usual targets wrap around).
* Both threads take `_messages_mutex` around their whole access to `_messages`, so a
  callback and a drain are atomic steps on the map.
-/

namespace Inspector

/-! ## Data model -/

/-- The fields of `mavlink_message_t` the inspector uses: `msgid` is a 24 bit field,
`sysid`, `compid` and `len` are `uint8_t`, and `payload` holds the bytes of the
`payload64` buffer in memory order. -/
structure mavlink_message_t where
  msgid : Nat
  sysid : Nat
  compid : Nat
  len : Nat
  payload : List Nat
deriving DecidableEq, Repr

/-- The value type of the map, `struct MessageInfo { int count{1}; mavlink_message_t last_message; }`. -/
structure MessageInfo where
  count : Int := 1
  last_message : mavlink_message_t
deriving DecidableEq, Repr

/-- Reduction of an integer to the range of a 32 bit `int`. -/
def wrapInt32 (x : Int) : Int := (x + 2147483648) % 4294967296 - 2147483648

/-- The largest `int`. -/
def INT_MAX : Int := 2147483647

/-- The smallest `int`. -/
def INT_MIN : Int := -2147483648

/-- The container `std::map<uint32_t, MessageInfo> _messages`. -/
abbrev MessageMap := List (Nat × MessageInfo)

/-- Lookup `_messages.find(k)`: the entry stored under `k`, `none` for `end()`. -/
def MessageMap.find : MessageMap → Nat → Option MessageInfo
  | [], _ => none
  | (k', v) :: rest, k => if k' = k then some v else MessageMap.find rest k

/-- Assignment `_messages[k] = v`: replaces the entry under `k` or inserts a new one at
its place in the key order. -/
def MessageMap.assign : MessageMap → Nat → MessageInfo → MessageMap
  | [], k, v => [(k, v)]
  | (k', v') :: rest, k, v =>
    if k < k' then (k, v) :: (k', v') :: rest
    else if k = k' then (k, v) :: rest
    else (k', v') :: MessageMap.assign rest k v

/-- Update `++message_iter->second.count` on the entry that `find(k)` points to. -/
def MessageMap.incrementCount : MessageMap → Nat → MessageMap
  | [], _ => []
  | (k', v) :: rest, k =>
    if k' = k then (k', { v with count := wrapInt32 (v.count + 1) }) :: rest
    else (k', v) :: MessageMap.incrementCount rest k

/-- Keys of the map in iteration order. -/
def MessageMap.keys (m : MessageMap) : List Nat := m.map Prod.fst

/-- Class invariant of `std::map`: keys are strictly ascending (hence unique). -/
def MessageMap.WF (m : MessageMap) : Prop := m.keys.Pairwise (· < ·)

/-! ## The ingestion callback -/

/-- The method `Inspector::mavlink_message_receive_callback`: `message` is `none` for a
null pointer; the result is the returned flag and the map afterwards. -/
def mavlink_message_receive_callback (message : Option mavlink_message_t)
    (messages : MessageMap) : Bool × MessageMap :=
  match message with
  | none => (false, messages)
  | some mav_message =>
    match messages.find mav_message.msgid with
    | none =>
      let info : MessageInfo := { last_message := mav_message }
      (true, messages.assign mav_message.msgid info)
    | some _ => (true, messages.incrementCount mav_message.msgid)

/-- The map after the callback has been invoked on each message of `msgs` in turn. -/
def recordAll (msgs : List mavlink_message_t) (messages : MessageMap) : MessageMap :=
  msgs.foldl (fun acc m => (mavlink_message_receive_callback (some m) acc).2) messages

/-! ## The reporting loop -/

/-- The locked block of `Inspector::run`: every value of the map is pushed onto
`messages_sorted` in iteration order, then the map is cleared. The result is the
vector and the map afterwards. -/
def drain (messages : MessageMap) : List MessageInfo × MessageMap :=
  (messages.foldl (fun messages_sorted message => messages_sorted ++ [message.2]) [], [])

/-- Sum of the `count` fields of a vector of entries. -/
def sumCounts (entries : List MessageInfo) : Int := (entries.map (·.count)).sum

/-- Sum of the `count` fields stored in the map. -/
def totalCount (m : MessageMap) : Int := sumCounts (m.map Prod.snd)

/-! ## The MAVLink message schema -/

/-- The enumeration `mavlink_message_type_t` of the MAVLink C library. -/
inductive mavlink_message_type_t where
  | MAVLINK_TYPE_CHAR
  | MAVLINK_TYPE_UINT8_T
  | MAVLINK_TYPE_INT8_T
  | MAVLINK_TYPE_UINT16_T
  | MAVLINK_TYPE_INT16_T
  | MAVLINK_TYPE_UINT32_T
  | MAVLINK_TYPE_INT32_T
  | MAVLINK_TYPE_UINT64_T
  | MAVLINK_TYPE_INT64_T
  | MAVLINK_TYPE_FLOAT
  | MAVLINK_TYPE_DOUBLE
deriving DecidableEq, Repr

open mavlink_message_type_t

/-- The fields of `mavlink_field_info_t` the inspector reads. -/
structure mavlink_field_info_t where
  name : String
  type : mavlink_message_type_t
  array_length : Nat
  structure_offset : Nat
deriving DecidableEq, Repr

/-- The structure `mavlink_message_info_t`: the type name and the field descriptors; the
list `fields` holds the first `num_fields` elements of the C array. -/
structure mavlink_message_info_t where
  name : String
  fields : List mavlink_field_info_t
deriving DecidableEq, Repr

/-- The member `num_fields`. -/
def mavlink_message_info_t.num_fields (msg_info : mavlink_message_info_t) : Nat :=
  msg_info.fields.length

/-- What the inspector takes from outside the repository: the schema table of the MAVLink
library keyed by msgid, the `"%.3f"` conversions of `printf` (from the bit pattern of a
`float` and of a `double`), and `std::sort`. -/
structure Env where
  mavlink_get_message_info_by_id : Nat → Option mavlink_message_info_t
  fmt_float : Nat → String
  fmt_double : Nat → String
  sort : (MessageInfo → MessageInfo → Bool) → List MessageInfo → List MessageInfo

/-! ## The decoder -/

/-- The library function `mavlink_get_message_info`: the schema entry for the msgid of the
message, `none` for a null result. -/
def mavlink_get_message_info (env : Env) (msg : mavlink_message_t) :
    Option mavlink_message_info_t :=
  env.mavlink_get_message_info_by_id msg.msgid

/-- The escape sequence `GREEN_CONSOLE_TEXT`. -/
def GREEN_CONSOLE_TEXT : String := "\x1b[32m"

/-- The escape sequence `NORMAL_CONSOLE_TEXT`. -/
def NORMAL_CONSOLE_TEXT : String := "\x1b[0m"

/-- Size in bytes of an element of the given type. -/
def typeWidth : mavlink_message_type_t → Nat
  | MAVLINK_TYPE_CHAR => 1
  | MAVLINK_TYPE_UINT8_T => 1
  | MAVLINK_TYPE_INT8_T => 1
  | MAVLINK_TYPE_UINT16_T => 2
  | MAVLINK_TYPE_INT16_T => 2
  | MAVLINK_TYPE_UINT32_T => 4
  | MAVLINK_TYPE_INT32_T => 4
  | MAVLINK_TYPE_UINT64_T => 8
  | MAVLINK_TYPE_INT64_T => 8
  | MAVLINK_TYPE_FLOAT => 4
  | MAVLINK_TYPE_DOUBLE => 8

/-- Value of a little-endian byte sequence. -/
def leValue : List Nat → Nat
  | [] => 0
  | b :: rest => b % 256 + 256 * leValue rest

/-- Load of `width` bytes at byte address `addr` of the payload buffer (the host is
little-endian); `none` when the load leaves the buffer. -/
def readLE (payload : List Nat) (addr width : Nat) : Option Nat :=
  if addr + width ≤ payload.length then some (leValue ((payload.drop addr).take width))
  else none

/-- Two's-complement reading of a `bits` wide value. -/
def toSigned (bits : Nat) (v : Nat) : Int :=
  if v < 2 ^ (bits - 1) then (v : Int) else (v : Int) - 2 ^ bits

/-- The bytes `printf("%s", p)` emits for `p = payload + addr`: everything up to the first
zero byte; `none` when there is no zero byte before the end of the buffer. -/
def readCString (payload : List Nat) (addr : Nat) : Option (List Nat) :=
  if (payload.drop addr).any (fun b => b % 256 == 0) then
    some (((payload.drop addr).takeWhile (fun b => b % 256 != 0)).map (· % 256))
  else none

/-- Output bytes as text, one character per byte. -/
def bytesToString (bytes : List Nat) : String := String.mk (bytes.map Char.ofNat)

/-- The method `Inspector::printField`: the text printed for element `offset` of `field`;
`none` when the element lies outside the payload buffer. -/
def printField (env : Env) (mav_message : mavlink_message_t) (field : mavlink_field_info_t)
    (offset : Nat := 0) : Option String :=
  (readLE mav_message.payload (field.structure_offset + offset * typeWidth field.type)
      (typeWidth field.type)).map fun raw =>
    match field.type with
    | MAVLINK_TYPE_CHAR => bytesToString [raw]
    | MAVLINK_TYPE_UINT8_T => toString raw
    | MAVLINK_TYPE_INT8_T => toString (toSigned 8 raw)
    | MAVLINK_TYPE_UINT16_T => toString raw
    | MAVLINK_TYPE_INT16_T => toString (toSigned 16 raw)
    | MAVLINK_TYPE_UINT32_T => toString raw
    | MAVLINK_TYPE_INT32_T => toString (toSigned 32 raw)
    | MAVLINK_TYPE_UINT64_T => toString raw
    | MAVLINK_TYPE_INT64_T => toString (toSigned 64 raw)
    | MAVLINK_TYPE_FLOAT => env.fmt_float raw
    | MAVLINK_TYPE_DOUBLE => env.fmt_double raw

/-- The inner loop of `printMessage` over the elements `j = first, first + 1, ...` of an
array field: each element, followed by `", "` unless `j` is `array_length - 1`. -/
def printArrayElements (env : Env) (mav_message : mavlink_message_t)
    (field : mavlink_field_info_t) : List Nat → Option String
  | [] => some ""
  | j :: rest =>
    match printField env mav_message field j, printArrayElements env mav_message field rest with
    | some element, some tail =>
      some (element ++ (if j < field.array_length - 1 then ", " else "") ++ tail)
    | _, _ => none

/-- The part of the loop body of `printMessage` that prints the value of one field. -/
def printFieldValue (env : Env) (mav_message : mavlink_message_t)
    (field : mavlink_field_info_t) : Option String :=
  if field.array_length > 0 then
    if field.type = MAVLINK_TYPE_CHAR then
      (readCString mav_message.payload field.structure_offset).map bytesToString
    else
      (printArrayElements env mav_message field (List.range field.array_length)).map
        fun elements => "(" ++ elements ++ ")"
  else printField env mav_message field

/-- The loop of `printMessage` over the descriptors `fields[i], fields[i + 1], ...`: name,
`"="`, value, and `", "` unless `i` is `num_fields - 1`. -/
def printFields (env : Env) (mav_message : mavlink_message_t) (num_fields : Nat) :
    Nat → List mavlink_field_info_t → Option String
  | _, [] => some ""
  | i, field :: rest =>
    match printFieldValue env mav_message field,
      printFields env mav_message num_fields (i + 1) rest with
    | some value, some tail =>
      some (field.name ++ "=" ++ value ++ (if i < num_fields - 1 then ", " else "") ++ tail)
    | _, _ => none

/-- The method `Inspector::printMessage`: the text written to standard output; `none`
when a field read leaves the payload buffer. -/
def printMessage (env : Env) (mav_message : mavlink_message_t) : Option String :=
  match mavlink_get_message_info env mav_message with
  | some msg_info =>
    (printFields env mav_message msg_info.num_fields 0 msg_info.fields).map fun fields =>
      GREEN_CONSOLE_TEXT ++ msg_info.name ++ NORMAL_CONSOLE_TEXT
        ++ " (sysid=" ++ toString (mav_message.sysid : Int)
        ++ ", compid=" ++ toString (mav_message.compid : Int) ++ ", "
        ++ fields ++ ")\n"
  | none =>
    some ("MSGID=" ++ toString (mav_message.msgid : Int)
      ++ " (sysid=" ++ toString (mav_message.sysid : Int)
      ++ ", compid=" ++ toString (mav_message.compid : Int)
      ++ ") len=" ++ toString (mav_message.len : Int) ++ "\n")

/-! ## Sorting and the rate -/

/-- The comparator `[](const MessageInfo& a, const MessageInfo& b) { return a.count < b.count; }`. -/
def countLess (a b : MessageInfo) : Bool := decide (a.count < b.count)

/-- What the C++ standard guarantees of `std::sort(first, last, comp)` for the comparator
of `run`: the range afterwards is a rearrangement of the range before, and no element
compares less than an element placed before it. The order of elements that compare
equivalent is left open. -/
def SortsByCount
    (sort : (MessageInfo → MessageInfo → Bool) → List MessageInfo → List MessageInfo) : Prop :=
  ∀ l, (sort countLess l).Perm l ∧
    (sort countLess l).Pairwise (fun a b => countLess b a = false)

/-- The vector `messages_sorted` of `run` after the call of `sort`. -/
def messagesSorted (env : Env) (messages : MessageMap) : List MessageInfo :=
  env.sort countLess (drain messages).1

/-- A sort that meets the guarantee of `std::sort` and keeps equivalent elements in their
order (insertion sort). -/
def stableSort (comp : MessageInfo → MessageInfo → Bool) (l : List MessageInfo) :
    List MessageInfo :=
  List.insertionSort (fun a b => comp b a = false) l

/-! ## The library sort

The function `std::sort` of the GNU C++ library (`bits/stl_algo.h`, `bits/stl_heap.h`),
which `run` calls: introsort down to ranges of 16 elements, then insertion sort. Iterators
are positions in the list. -/

/-- The value `comp(first + i, first + j)` on the elements at two positions; `false`
outside the range. -/
def compAt {α : Type} (comp : α → α → Bool) (l : List α) (i j : Nat) : Bool :=
  match l[i]?, l[j]? with
  | some x, some y => comp x y
  | _, _ => false

/-- The call `std::iter_swap(i, j)`. -/
def iter_swap {α : Type} (l : List α) (i j : Nat) : List α :=
  match l[i]?, l[j]? with
  | some x, some y => (l.set i y).set j x
  | _, _ => l

/-- The assignment `*dst = std::move(*src)`. -/
def moveAt {α : Type} (l : List α) (dst src : Nat) : List α :=
  match l[src]? with
  | some x => l.set dst x
  | none => l

/-- The function `std::__lg`: the floor of the binary logarithm. The first argument
bounds the number of halvings. -/
def lg : Nat → Nat → Nat
  | 0, _ => 0
  | fuel + 1, n => if n < 2 then 0 else lg fuel (n / 2) + 1

/-- The function `std::__move_median_to_first`: the median of the elements at `a`, `b`
and `c` is swapped to `result`. -/
def move_median_to_first {α : Type} (comp : α → α → Bool) (l : List α)
    (result a b c : Nat) : List α :=
  if compAt comp l a b then
    if compAt comp l b c then iter_swap l result b
    else if compAt comp l a c then iter_swap l result c
    else iter_swap l result a
  else if compAt comp l a c then iter_swap l result a
  else if compAt comp l b c then iter_swap l result c
  else iter_swap l result b

/-- The loop `while (comp(first, pivot)) ++first;` of `std::__unguarded_partition`. -/
def scanUp {α : Type} (comp : α → α → Bool) (l : List α) (pivot : Nat) : Nat → Nat → Nat
  | 0, first => first
  | fuel + 1, first =>
    if compAt comp l first pivot then scanUp comp l pivot fuel (first + 1) else first

/-- The loop `while (comp(pivot, last)) --last;` of `std::__unguarded_partition`. -/
def scanDown {α : Type} (comp : α → α → Bool) (l : List α) (pivot : Nat) : Nat → Nat
  | 0 => 0
  | last + 1 =>
    if compAt comp l pivot (last + 1) then scanDown comp l pivot last else last + 1

/-- The function `std::__unguarded_partition`: the range after the partition around the
element at `pivot`, and the returned position. The first argument bounds the number of
rounds of `while (true)`; every round but the last swaps one pair. -/
def unguarded_partition {α : Type} (comp : α → α → Bool) (pivot : Nat) :
    Nat → List α → Nat → Nat → List α × Nat
  | 0, l, first, _ => (l, first)
  | fuel + 1, l, first, last =>
    if scanUp comp l pivot l.length first < scanDown comp l pivot (last - 1) then
      unguarded_partition comp pivot fuel
        (iter_swap l (scanUp comp l pivot l.length first) (scanDown comp l pivot (last - 1)))
        (scanUp comp l pivot l.length first + 1) (scanDown comp l pivot (last - 1))
    else (l, scanUp comp l pivot l.length first)

/-- The function `std::__unguarded_partition_pivot`. -/
def unguarded_partition_pivot {α : Type} (comp : α → α → Bool) (l : List α)
    (first last : Nat) : List α × Nat :=
  unguarded_partition comp first l.length
    (move_median_to_first comp l first (first + 1) (first + (last - first) / 2) (last - 1))
    (first + 1) last

/-- The function `std::__push_heap` on the range starting at `first`. The first numeric
argument bounds the number of rounds of its loop. -/
def push_heap {α : Type} (comp : α → α → Bool) (first topIndex : Nat) (value : α) :
    Nat → List α → Nat → List α
  | 0, l, holeIndex => l.set (first + holeIndex) value
  | fuel + 1, l, holeIndex =>
    match l[first + (holeIndex - 1) / 2]? with
    | some parent =>
      if holeIndex > topIndex ∧ comp parent value = true then
        push_heap comp first topIndex value fuel (l.set (first + holeIndex) parent)
          ((holeIndex - 1) / 2)
      else l.set (first + holeIndex) value
    | none => l.set (first + holeIndex) value

/-- The loop of `std::__adjust_heap`, in which the hole moves down to the larger child:
the range and the hole afterwards (`holeIndex` and `secondChild` agree at the head of
every round). -/
def adjust_heap_loop {α : Type} (comp : α → α → Bool) (first len : Nat) :
    Nat → List α → Nat → List α × Nat
  | 0, l, holeIndex => (l, holeIndex)
  | fuel + 1, l, holeIndex =>
    if holeIndex < (len - 1) / 2 then
      if compAt comp l (first + 2 * (holeIndex + 1)) (first + (2 * (holeIndex + 1) - 1)) then
        adjust_heap_loop comp first len fuel
          (moveAt l (first + holeIndex) (first + (2 * (holeIndex + 1) - 1)))
          (2 * (holeIndex + 1) - 1)
      else
        adjust_heap_loop comp first len fuel
          (moveAt l (first + holeIndex) (first + 2 * (holeIndex + 1)))
          (2 * (holeIndex + 1))
    else (l, holeIndex)

/-- The function `std::__adjust_heap`. -/
def adjust_heap {α : Type} (comp : α → α → Bool) (l : List α) (first holeIndex len : Nat)
    (value : α) : List α :=
  if len % 2 = 0 ∧ (adjust_heap_loop comp first len len l holeIndex).2 = (len - 2) / 2 then
    push_heap comp first holeIndex value len
      (moveAt (adjust_heap_loop comp first len len l holeIndex).1
        (first + (adjust_heap_loop comp first len len l holeIndex).2)
        (first + (2 * ((adjust_heap_loop comp first len len l holeIndex).2 + 1) - 1)))
      (2 * ((adjust_heap_loop comp first len len l holeIndex).2 + 1) - 1)
  else
    push_heap comp first holeIndex value len
      (adjust_heap_loop comp first len len l holeIndex).1
      (adjust_heap_loop comp first len len l holeIndex).2

/-- The loop of `std::__make_heap` from `parent` down to 0. -/
def make_heap_loop {α : Type} (comp : α → α → Bool) (first len : Nat) :
    Nat → List α → List α
  | 0, l =>
    match l[first]? with
    | some value => adjust_heap comp l first 0 len value
    | none => l
  | parent + 1, l =>
    match l[first + (parent + 1)]? with
    | some value => make_heap_loop comp first len parent
        (adjust_heap comp l first (parent + 1) len value)
    | none => l

/-- The function `std::__make_heap`. -/
def make_heap {α : Type} (comp : α → α → Bool) (l : List α) (first last : Nat) : List α :=
  if last - first < 2 then l
  else make_heap_loop comp first (last - first) ((last - first - 2) / 2) l

/-- The function `std::__pop_heap`. -/
def pop_heap {α : Type} (comp : α → α → Bool) (l : List α) (first last result : Nat) :
    List α :=
  match l[result]? with
  | some value => adjust_heap comp (moveAt l result first) first 0 (last - first) value
  | none => l

/-- The function `std::__sort_heap` on a range of the given number of elements starting
at `first`. -/
def sort_heap {α : Type} (comp : α → α → Bool) (first : Nat) : Nat → List α → List α
  | 0, l => l
  | n + 1, l =>
    if n + 1 > 1 then sort_heap comp first n (pop_heap comp l first (first + n) (first + n))
    else l

/-- The call `std::__partial_sort(first, last, last, comp)` of `std::__introsort_loop`:
`std::__heap_select` makes a heap of the whole range (its loop over the elements from
`middle` on is empty), then `std::__sort_heap`. -/
def heap_sort_range {α : Type} (comp : α → α → Bool) (l : List α) (first last : Nat) :
    List α :=
  sort_heap comp first (last - first) (make_heap comp l first last)

/-- The function `std::__introsort_loop`, by recursion on `depth_limit`, which every round
of its loop lowers by one. -/
def introsort_loop {α : Type} (comp : α → α → Bool) : Nat → List α → Nat → Nat → List α
  | 0, l, first, last =>
    if last - first > 16 then heap_sort_range comp l first last else l
  | depth_limit + 1, l, first, last =>
    if last - first > 16 then
      introsort_loop comp depth_limit
        (introsort_loop comp depth_limit (unguarded_partition_pivot comp l first last).1
          (unguarded_partition_pivot comp l first last).2 last)
        first (unguarded_partition_pivot comp l first last).2
    else l

/-- The loop of `std::__unguarded_linear_insert`: `val` moves down from `last` past every
element it compares less than. -/
def unguarded_linear_insert_loop {α : Type} (comp : α → α → Bool) (val : α) :
    Nat → List α → List α
  | 0, l => l.set 0 val
  | next + 1, l =>
    match l[next]? with
    | some x =>
      if comp val x then unguarded_linear_insert_loop comp val next (l.set (next + 1) x)
      else l.set (next + 1) val
    | none => l.set (next + 1) val

/-- The function `std::__unguarded_linear_insert`. -/
def unguarded_linear_insert {α : Type} (comp : α → α → Bool) (l : List α) (last : Nat) :
    List α :=
  match l[last]? with
  | some val => unguarded_linear_insert_loop comp val last l
  | none => l

/-- The body of the loop of `std::__insertion_sort` for the position `i`: an element less
than the first one is moved to the front by `std::move_backward`, any other is inserted by
`std::__unguarded_linear_insert`. -/
def insertion_sort_step {α : Type} (comp : α → α → Bool) (first : Nat) (l : List α)
    (i : Nat) : List α :=
  if compAt comp l i first then
    match l[i]? with
    | some val =>
      l.take first ++ val :: (l.drop first).take (i - first) ++ l.drop (i + 1)
    | none => l
  else unguarded_linear_insert comp l i

/-- The function `std::__insertion_sort`. -/
def insertion_sort {α : Type} (comp : α → α → Bool) (l : List α) (first last : Nat) :
    List α :=
  if first = last then l
  else (List.range' (first + 1) (last - (first + 1))).foldl (insertion_sort_step comp first) l

/-- The function `std::__unguarded_insertion_sort`. -/
def unguarded_insertion_sort {α : Type} (comp : α → α → Bool) (l : List α)
    (first last : Nat) : List α :=
  (List.range' first (last - first)).foldl (unguarded_linear_insert comp) l

/-- The function `std::__final_insertion_sort`. -/
def final_insertion_sort {α : Type} (comp : α → α → Bool) (l : List α) (first last : Nat) :
    List α :=
  if last - first > 16 then
    unguarded_insertion_sort comp (insertion_sort comp l first (first + 16)) (first + 16) last
  else insertion_sort comp l first last

/-- The function `std::sort(first, last, comp)` on the whole vector. -/
def std_sort {α : Type} (comp : α → α → Bool) (l : List α) : List α :=
  if l.length = 0 then l
  else final_insertion_sort comp
    (introsort_loop comp (lg l.length l.length * 2) l 0 l.length) 0 l.length

/-- Rounding to the nearest integer, ties to the even one. -/
def roundHalfEven (x : ℚ) : ℤ :=
  if x - ⌊x⌋ < 1 / 2 then ⌊x⌋
  else if 1 / 2 < x - ⌊x⌋ then ⌊x⌋ + 1
  else if ⌊x⌋ % 2 = 0 then ⌊x⌋ else ⌊x⌋ + 1

/-- Rounding of a real value to the nearest `float` (IEEE 754 binary32: 24 significant
bits, ties to even). The exponent is not limited: the values of the rate computation,
between 1000 / 2^63 and 1000 * 2^31 in magnitude when not zero, are far from the overflow
and underflow thresholds of binary32. -/
def roundF32 (x : ℚ) : ℚ :=
  if x = 0 then 0
  else (roundHalfEven (x / 2 ^ (Int.log 2 |x| - 23)) : ℚ) * 2 ^ (Int.log 2 |x| - 23)

/-- Conversion `(int) x` of a floating-point value: truncation toward zero. -/
def truncToInt (x : ℚ) : ℤ := if 0 ≤ x then ⌊x⌋ else ⌈x⌉

/-- The expression `(int) (message.count * 1000.f / duration_ms + 0.5f)` of `run`, every
operation in `float`: the conversions of `count` and `duration_ms`, the product, the
quotient and the sum are each rounded to binary32. The result is `none` when
`duration_ms` is 0 (the quotient is then infinite or not a number) or when the value does
not fit an `int`. -/
def rate (count : Int) (duration_ms : Int) : Option Int :=
  if duration_ms = 0 then none
  else if INT_MIN ≤ truncToInt (roundF32
      (roundF32 (roundF32 (roundF32 count * 1000) / roundF32 duration_ms) + 1 / 2)) ∧
      truncToInt (roundF32
        (roundF32 (roundF32 (roundF32 count * 1000) / roundF32 duration_ms) + 1 / 2)) ≤ INT_MAX
  then some (truncToInt (roundF32
      (roundF32 (roundF32 (roundF32 count * 1000) / roundF32 duration_ms) + 1 / 2)))
  else none

/-- The value `count * 1000 / elapsed_ms` rounded to the nearest integer, halves up. -/
def rateExact (count : Int) (elapsed_ms : Int) : Int :=
  (2000 * count + elapsed_ms) / (2 * elapsed_ms)

/-- The loop of `run` over `messages_sorted`: for each entry the rate, a space, and the
text of `printMessage` for its `last_message`. -/
def printRows (env : Env) (duration_ms : Int) : List MessageInfo → Option String
  | [] => some ""
  | message :: rest =>
    match rate message.count duration_ms, printMessage env message.last_message,
      printRows env duration_ms rest with
    | some r, some text, some tail => some (toString r ++ " " ++ text ++ tail)
    | _, _, _ => none

/-- The body of `if (duration_ms > 1000)` in `run` up to `start = now`: clear the screen,
drain the map, sort, print one row per entry. The result is the text written (`none`
when a row has no defined text) and the map afterwards. -/
def reportCycle (env : Env) (duration_ms : Int) (messages : MessageMap) :
    Option String × MessageMap :=
  ((printRows env duration_ms (messagesSorted env messages)).map fun rows =>
      "\x1b[2J\n" ++ rows,
    (drain messages).2)

/-! ## The polling loop -/

/-- What the loop of `run` carries from one iteration to the next: the time point `start`,
in ticks of `steady_clock`, and the map. -/
structure RunState where
  start : Int
  messages : MessageMap

/-- The value `duration_cast<milliseconds>(now - start).count()`: the whole milliseconds
in the tick difference, truncated toward zero; `ticksPerMs` is the number of ticks of
`steady_clock` in a millisecond (1000000 for a nanosecond clock). -/
def durationMs (ticksPerMs : Int) (start now : Int) : Int :=
  Int.tdiv (now - start) ticksPerMs

/-- One iteration of the loop of `run` after its sleep, `now` being the value of
`steady_clock::now()`: the state afterwards and the text written, which is empty when the
guard `duration_ms > 1000` fails. -/
def poll (env : Env) (ticksPerMs : Int) (now : Int) (s : RunState) :
    RunState × Option String :=
  if durationMs ticksPerMs s.start now > 1000 then
    ({ start := now,
       messages := (reportCycle env (durationMs ticksPerMs s.start now) s.messages).2 },
      (reportCycle env (durationMs ticksPerMs s.start now) s.messages).1)
  else (s, some "")

/-! ## Histories of the aggregator -/

/-- A step on the map: a call of the callback with a message pointer (`none` for null) or
the locked drain block of `run`. -/
inductive Step where
  | callback (message : Option mavlink_message_t)
  | drain

/-- The map after one step. -/
def applyStep (messages : MessageMap) : Step → MessageMap
  | Step.callback message => (mavlink_message_receive_callback message messages).2
  | Step.drain => (drain messages).2

/-- The map reached from the empty map by the steps of a history, in order. -/
def runSteps (steps : List Step) : MessageMap := steps.foldl applyStep []

/-- The non-null messages a history passes to the callback after its last drain. -/
def recordedSinceDrain (steps : List Step) : List mavlink_message_t :=
  steps.foldl (fun acc st =>
    match st with
    | Step.callback (some m) => acc ++ [m]
    | Step.callback none => acc
    | Step.drain => []) []

/-- Number of messages of a sequence that carry the given msgid. -/
def occurrences (msgs : List mavlink_message_t) (msgid : Nat) : Nat :=
  msgs.countP (fun m => decide (m.msgid = msgid))

/-! ## Text layout as the specification words it -/

/-- The items of a list written one after the other with `sep` between neighbours. -/
def separated (sep : String) : List String → String
  | [] => ""
  | [x] => x
  | x :: y :: rest => x ++ sep ++ separated sep (y :: rest)

/-- The strings of a list written one after the other. -/
def concatAll : List String → String
  | [] => ""
  | x :: rest => x ++ concatAll rest

/-- Unsigned value of the `width` bytes at address `addr`, least significant byte first:
the sum of `byte i * 256 ^ i`. -/
def unsignedAt (payload : List Nat) (addr width : Nat) : Nat :=
  ((List.range width).map fun i => (payload.getD (addr + i) 0 % 256) * 256 ^ i).sum

/-- Two's-complement value of the `width` bytes at address `addr`. -/
def signedAt (payload : List Nat) (addr width : Nat) : Int :=
  if unsignedAt payload addr width < 2 ^ (8 * width - 1) then
    (unsignedAt payload addr width : Int)
  else (unsignedAt payload addr width : Int) - 2 ^ (8 * width)

/-! ## Sample data -/

/-- A heartbeat-like message (msgid 0) from system 1, component 1. -/
def msgA : mavlink_message_t :=
  { msgid := 0, sysid := 1, compid := 1, len := 9, payload := [4, 0, 0, 0, 2, 12, 81, 3, 3] }

/-- A second message with the msgid of `msgA` and another payload. -/
def msgA2 : mavlink_message_t :=
  { msgid := 0, sysid := 1, compid := 1, len := 9, payload := [5, 0, 0, 0, 2, 12, 81, 4, 3] }

/-- A message of another type (msgid 30). -/
def msgB : mavlink_message_t :=
  { msgid := 30, sysid := 1, compid := 1, len := 4, payload := [232, 3, 0, 0] }

/-- A map holding one entry for msgid 0 whose counter is at `INT_MAX`. -/
def saturatedMap : MessageMap := [(0, { count := 2147483647, last_message := msgA })]

/-- The schema entry of `HEARTBEAT` in the MAVLink common dialect. -/
def heartbeatInfo : mavlink_message_info_t :=
  { name := "HEARTBEAT",
    fields := [
      { name := "custom_mode", type := MAVLINK_TYPE_UINT32_T, array_length := 0,
        structure_offset := 0 },
      { name := "type", type := MAVLINK_TYPE_UINT8_T, array_length := 0,
        structure_offset := 4 },
      { name := "autopilot", type := MAVLINK_TYPE_UINT8_T, array_length := 0,
        structure_offset := 5 },
      { name := "base_mode", type := MAVLINK_TYPE_UINT8_T, array_length := 0,
        structure_offset := 6 },
      { name := "system_status", type := MAVLINK_TYPE_UINT8_T, array_length := 0,
        structure_offset := 7 },
      { name := "mavlink_version", type := MAVLINK_TYPE_UINT8_T, array_length := 0,
        structure_offset := 8 }] }

/-- A schema that knows msgid 0 as `HEARTBEAT` and nothing else. -/
def sampleSchema (msgid : Nat) : Option mavlink_message_info_t :=
  if msgid = 0 then some heartbeatInfo else none

/-- An environment with `sampleSchema`, placeholder float conversions and a sort that keeps
ties in order. -/
def sampleEnv : Env :=
  { mavlink_get_message_info_by_id := sampleSchema
    fmt_float := fun _ => "0.000"
    fmt_double := fun _ => "0.000"
    sort := stableSort }

/-- The environment `sampleEnv` with the sort of the GNU C++ library. -/
def libstdcxxEnv : Env := { sampleEnv with sort := std_sort }

/-- A message without schema entry of the given msgid. -/
def msgOfId (msgid : Nat) : mavlink_message_t := { msgB with msgid := msgid }

/-- A map with the seventeen keys 0 .. 16, every entry with count 1. -/
def seventeenTied : MessageMap :=
  (List.range 17).map fun k => (k, { count := 1, last_message := msgOfId k })

/-- A map with three entries whose counts are 5, 1 and 3 in key order. -/
def unsortedMap : MessageMap :=
  [(0, { count := 5, last_message := msgA }), (30, { count := 1, last_message := msgB }),
    (33, { count := 3, last_message := { msgB with msgid := 33 } })]

/-- A map with two entries of equal count. -/
def tiedMap : MessageMap :=
  [(0, { count := 2, last_message := msgA }), (30, { count := 2, last_message := msgB })]

/-- The schema entry of `NAMED_VALUE_INT` in the MAVLink common dialect. -/
def namedValueIntInfo : mavlink_message_info_t :=
  { name := "NAMED_VALUE_INT",
    fields := [
      { name := "time_boot_ms", type := MAVLINK_TYPE_UINT32_T, array_length := 0,
        structure_offset := 0 },
      { name := "value", type := MAVLINK_TYPE_INT32_T, array_length := 0,
        structure_offset := 4 },
      { name := "name", type := MAVLINK_TYPE_CHAR, array_length := 10,
        structure_offset := 8 }] }

/-- A schema entry with a `uint8_t` scalar at offset 0 and an `int16_t[4]` at offset 4. -/
def scalarAndArrayInfo : mavlink_message_info_t :=
  { name := "EXAMPLE",
    fields := [
      { name := "flag", type := MAVLINK_TYPE_UINT8_T, array_length := 0,
        structure_offset := 0 },
      { name := "samples", type := MAVLINK_TYPE_INT16_T, array_length := 4,
        structure_offset := 4 }] }

/-- An environment whose schema knows msgid 0, msgid 252 and msgid 7. -/
def decoderEnv : Env :=
  { sampleEnv with
    mavlink_get_message_info_by_id := fun msgid =>
      if msgid = 0 then some heartbeatInfo
      else if msgid = 252 then some namedValueIntInfo
      else if msgid = 7 then some scalarAndArrayInfo
      else none }

/-- A `NAMED_VALUE_INT` of length 18 whose name fills all ten characters; the two bytes
after the payload are the checksum bytes the MAVLink library keeps there. -/
def fullNameMsg : mavlink_message_t :=
  { msgid := 252, sysid := 1, compid := 1, len := 18,
    payload := [232, 3, 0, 0, 254, 255, 255, 255,
      65, 66, 67, 68, 69, 70, 71, 72, 73, 74, 75, 76, 0, 0, 0, 0] }

/-- A `NAMED_VALUE_INT` whose name has three characters and a terminator. -/
def shortNameMsg : mavlink_message_t :=
  { msgid := 252, sysid := 1, compid := 1, len := 18,
    payload := [232, 3, 0, 0, 254, 255, 255, 255,
      65, 66, 67, 0, 0, 0, 0, 0, 0, 0, 75, 76, 0, 0, 0, 0] }

/-- A message of the `EXAMPLE` type with known bytes. -/
def scalarAndArrayMsg : mavlink_message_t :=
  { msgid := 7, sysid := 1, compid := 1, len := 12,
    payload := [200, 0, 0, 0, 1, 0, 255, 255, 0, 128, 52, 18] }

/-- A history: a record, a drain, then two records of msgid 0 around a null call and a
record of msgid 30. -/
def sampleHistory : List Step :=
  [Step.callback (some msgB), Step.drain, Step.callback (some msgA), Step.callback none,
    Step.callback (some msgB), Step.callback (some msgA2)]

/-- A loop state with reference time 0 and three entries in the map. -/
def sampleRunState : RunState := { start := 0, messages := unsortedMap }

/-- Three messages of msgid 0 and one of msgid 30. -/
def threeAOneB : List mavlink_message_t := [msgA, msgB, msgA2, msgA]

/-- The rows of a cycle after `threeAOneB` with 1001 ms elapsed. -/
def rowsOfThreeAOneB : List String :=
  ["1 MSGID=30 (sysid=1, compid=1) len=4\n",
    "3 \x1b[32mHEARTBEAT\x1b[0m (sysid=1, compid=1, custom_mode=4, type=2, autopilot=12, "
      ++ "base_mode=81, system_status=3, mavlink_version=3)\n"]

/-- The descriptor of the `name` field of `NAMED_VALUE_INT`. -/
def nameField : mavlink_field_info_t :=
  { name := "name", type := MAVLINK_TYPE_CHAR, array_length := 10, structure_offset := 8 }

/-- The descriptor of the `samples` field of the `EXAMPLE` type. -/
def samplesField : mavlink_field_info_t :=
  { name := "samples", type := MAVLINK_TYPE_INT16_T, array_length := 4,
    structure_offset := 4 }

/-- The descriptor of the `flag` field of the `EXAMPLE` type. -/
def flagField : mavlink_field_info_t :=
  { name := "flag", type := MAVLINK_TYPE_UINT8_T, array_length := 0, structure_offset := 0 }

/-! # Theorems -/

/-! ## Facts about the map operations -/

theorem find_assign_self (m : MessageMap) (k : Nat) (v : MessageInfo) :
    (m.assign k v).find k = some v := by
  induction m with
  | nil => simp [MessageMap.assign, MessageMap.find]
  | cons hd tl ih =>
    obtain ⟨k', v'⟩ := hd
    simp only [MessageMap.assign]
    split_ifs with h1 h2
    · simp [MessageMap.find]
    · simp [MessageMap.find]
    · have : k' ≠ k := fun h => h2 h.symm
      simp [MessageMap.find, this, ih]

theorem find_assign_ne (m : MessageMap) (k k' : Nat) (v : MessageInfo) (h : k' ≠ k) :
    (m.assign k v).find k' = m.find k' := by
  induction m with
  | nil => simp [MessageMap.assign, MessageMap.find, h.symm]
  | cons hd tl ih =>
    obtain ⟨k₁, v₁⟩ := hd
    simp only [MessageMap.assign]
    split_ifs with h1 h2
    · simp [MessageMap.find, h.symm]
    · subst h2
      simp [MessageMap.find, h.symm]
    · simp [MessageMap.find, ih]

theorem assign_perm (m : MessageMap) (k : Nat) (v : MessageInfo) (h : m.find k = none) :
    (m.assign k v).Perm ((k, v) :: m) := by
  induction m with
  | nil => simp [MessageMap.assign]
  | cons hd tl ih =>
    obtain ⟨k₁, v₁⟩ := hd
    simp only [MessageMap.find] at h
    split_ifs at h with h0
    simp only [MessageMap.assign]
    split_ifs with h1 h2
    · exact List.Perm.refl _
    · exact absurd h2.symm h0
    · exact ((ih h).cons (k₁, v₁)).trans (List.Perm.swap _ _ _)

theorem find_incrementCount_self (m : MessageMap) (k : Nat) (e : MessageInfo)
    (h : m.find k = some e) :
    (m.incrementCount k).find k = some { e with count := wrapInt32 (e.count + 1) } := by
  induction m with
  | nil => simp [MessageMap.find] at h
  | cons hd tl ih =>
    obtain ⟨k₁, v₁⟩ := hd
    simp only [MessageMap.find] at h
    simp only [MessageMap.incrementCount]
    split_ifs at h ⊢ with h0
    · simp only [Option.some.injEq] at h
      subst h
      simp [MessageMap.find, h0]
    · simp [MessageMap.find, h0, ih h]

theorem find_incrementCount_ne (m : MessageMap) (k k' : Nat) (h : k' ≠ k) :
    (m.incrementCount k).find k' = m.find k' := by
  induction m with
  | nil => simp [MessageMap.incrementCount]
  | cons hd tl ih =>
    obtain ⟨k₁, v₁⟩ := hd
    simp only [MessageMap.incrementCount]
    split_ifs with h0
    · subst h0
      simp [MessageMap.find, h.symm]
    · simp [MessageMap.find, ih]

theorem keys_incrementCount (m : MessageMap) (k : Nat) :
    (m.incrementCount k).keys = m.keys := by
  induction m with
  | nil => rfl
  | cons hd tl ih =>
    obtain ⟨k₁, v₁⟩ := hd
    simp only [MessageMap.incrementCount]
    split_ifs with h0
    · simp [MessageMap.keys]
    · simpa [MessageMap.keys] using ih

theorem find_isSome_iff_mem_keys (m : MessageMap) (k : Nat) :
    (m.find k).isSome = true ↔ k ∈ m.keys := by
  induction m with
  | nil => simp [MessageMap.find, MessageMap.keys]
  | cons hd tl ih =>
    obtain ⟨k₁, v₁⟩ := hd
    simp only [MessageMap.find]
    split_ifs with h0
    · simp [MessageMap.keys, h0]
    · have : ¬ k = k₁ := fun h => h0 h.symm
      simpa [MessageMap.keys, this] using ih

theorem find_eq_none_iff (m : MessageMap) (k : Nat) : m.find k = none ↔ k ∉ m.keys := by
  rw [← find_isSome_iff_mem_keys]
  cases m.find k <;> simp

theorem mem_of_find (m : MessageMap) (k : Nat) (e : MessageInfo) (h : m.find k = some e) :
    (k, e) ∈ m := by
  induction m with
  | nil => simp [MessageMap.find] at h
  | cons hd tl ih =>
    obtain ⟨k₁, v₁⟩ := hd
    simp only [MessageMap.find] at h
    split_ifs at h with h0
    · simp only [Option.some.injEq] at h
      simp [h0, h]
    · exact List.mem_cons_of_mem _ (ih h)

theorem find_of_mem (m : MessageMap) (hm : m.WF) (k : Nat) (e : MessageInfo)
    (h : (k, e) ∈ m) : m.find k = some e := by
  induction m with
  | nil => simp at h
  | cons hd tl ih =>
    obtain ⟨k₁, v₁⟩ := hd
    simp only [MessageMap.WF, MessageMap.keys, List.map_cons, List.pairwise_cons] at hm
    simp only [MessageMap.find]
    rcases List.mem_cons.mp h with h1 | h1
    · simp only [Prod.mk.injEq] at h1
      simp [h1.1, h1.2]
    · have hk : k ∈ tl.map Prod.fst := List.mem_map.mpr ⟨(k, e), h1, rfl⟩
      have : k₁ ≠ k := ne_of_lt (hm.1 k hk)
      simp [this, ih hm.2 h1]

theorem wf_assign (m : MessageMap) (k : Nat) (v : MessageInfo) (hm : m.WF) :
    (m.assign k v).WF := by
  induction m with
  | nil => simp [MessageMap.assign, MessageMap.WF, MessageMap.keys]
  | cons hd tl ih =>
    obtain ⟨k₁, v₁⟩ := hd
    have hm' := hm
    simp only [MessageMap.WF, MessageMap.keys, List.map_cons, List.pairwise_cons] at hm'
    simp only [MessageMap.assign]
    split_ifs with h1 h2
    · simp only [MessageMap.WF, MessageMap.keys, List.map_cons, List.pairwise_cons]
      refine ⟨?_, hm'⟩
      intro a ha
      rcases List.mem_cons.mp ha with h | h
      · exact h ▸ h1
      · exact lt_trans h1 (hm'.1 a h)
    · subst h2
      simpa [MessageMap.WF, MessageMap.keys] using hm'
    · have ih' := ih hm'.2
      simp only [MessageMap.WF, MessageMap.keys, List.map_cons, List.pairwise_cons]
      refine ⟨?_, ih'⟩
      intro a ha
      have hlt : k₁ < k := by omega
      by_cases hak : a = k
      · exact hak ▸ hlt
      · have h3 : (MessageMap.find (MessageMap.assign tl k v) a).isSome = true :=
          (find_isSome_iff_mem_keys _ _).mpr ha
        rw [find_assign_ne _ _ _ _ hak] at h3
        exact hm'.1 a ((find_isSome_iff_mem_keys _ _).mp h3)

theorem wf_incrementCount (m : MessageMap) (k : Nat) (hm : m.WF) :
    (m.incrementCount k).WF := by
  simpa [MessageMap.WF, keys_incrementCount] using hm

theorem wf_callback (message : Option mavlink_message_t) (m : MessageMap) (hm : m.WF) :
    (mavlink_message_receive_callback message m).2.WF := by
  cases message with
  | none => exact hm
  | some mav =>
    cases h : m.find mav.msgid with
    | none => simpa [mavlink_message_receive_callback, h] using wf_assign _ _ _ hm
    | some e => simpa [mavlink_message_receive_callback, h] using wf_incrementCount _ _ hm

theorem drain_fst (m : MessageMap) : (drain m).1 = m.map Prod.snd := by
  have key : ∀ (l : MessageMap) (acc : List MessageInfo),
      l.foldl (fun messages_sorted message => messages_sorted ++ [message.2]) acc
        = acc ++ l.map Prod.snd := by
    intro l
    induction l with
    | nil => intro acc; simp
    | cons hd tl ih => intro acc; simp [ih]
  simpa [drain] using key m []

/-! ## Counting -/

theorem wrapInt32_eq_self (x : Int) (h1 : -2147483648 ≤ x) (h2 : x ≤ 2147483647) :
    wrapInt32 x = x := by
  unfold wrapInt32
  omega

theorem wrapInt32_succ (c : Int) : wrapInt32 (wrapInt32 c + 1) = wrapInt32 (c + 1) := by
  unfold wrapInt32
  omega

theorem totalCount_assign (m : MessageMap) (k : Nat) (v : MessageInfo)
    (h : m.find k = none) : totalCount (m.assign k v) = totalCount m + v.count := by
  have hp := assign_perm m k v h
  have := ((hp.map Prod.snd).map (·.count)).sum_eq
  simp only [totalCount, sumCounts]
  rw [this]
  simp [add_comm]

theorem totalCount_incrementCount (m : MessageMap) (k : Nat) (e : MessageInfo)
    (h : m.find k = some e) :
    totalCount (m.incrementCount k) = totalCount m - e.count + wrapInt32 (e.count + 1) := by
  induction m with
  | nil => simp [MessageMap.find] at h
  | cons hd tl ih =>
    obtain ⟨k₁, v₁⟩ := hd
    simp only [MessageMap.find] at h
    simp only [MessageMap.incrementCount]
    split_ifs at h ⊢ with h0
    · simp only [Option.some.injEq] at h
      subst h
      simp only [totalCount, sumCounts, List.map_cons, List.sum_cons]
      omega
    · have ih' := ih h
      simp only [totalCount, sumCounts, List.map_cons, List.sum_cons] at ih' ⊢
      omega

theorem count_le_totalCount (m : MessageMap) (hpos : ∀ p ∈ m, 1 ≤ p.2.count)
    (p : Nat × MessageInfo) (hp : p ∈ m) : p.2.count ≤ totalCount m := by
  induction m with
  | nil => simp at hp
  | cons hd tl ih =>
    have hnn : ∀ (l : MessageMap), (∀ q ∈ l, 1 ≤ q.2.count) → 0 ≤ totalCount l := by
      intro l
      induction l with
      | nil => intro _; simp [totalCount, sumCounts]
      | cons a l ihl =>
        intro hl
        have h1 := hl a (List.mem_cons_self _ _)
        have h2 := ihl (fun q hq => hl q (List.mem_cons_of_mem _ hq))
        simp only [totalCount, sumCounts, List.map_cons, List.sum_cons] at h2 ⊢
        omega
    have htl : ∀ q ∈ tl, 1 ≤ q.2.count := fun q hq => hpos q (List.mem_cons_of_mem _ hq)
    have h0 := hnn tl htl
    have hhd := hpos hd (List.mem_cons_self _ _)
    rcases List.mem_cons.mp hp with h | h
    · subst h
      simp only [totalCount, sumCounts, List.map_cons, List.sum_cons] at h0 ⊢
      omega
    · have := ih htl h
      simp only [totalCount, sumCounts, List.map_cons, List.sum_cons] at this ⊢
      omega

theorem mem_incrementCount (m : MessageMap) (k : Nat) (p : Nat × MessageInfo)
    (hp : p ∈ m.incrementCount k) :
    p ∈ m ∨ ∃ e, m.find k = some e ∧ p = (k, { e with count := wrapInt32 (e.count + 1) }) := by
  induction m with
  | nil => simp [MessageMap.incrementCount] at hp
  | cons hd tl ih =>
    obtain ⟨k₁, v₁⟩ := hd
    simp only [MessageMap.incrementCount] at hp
    simp only [MessageMap.find]
    split_ifs at hp ⊢ with h0
    · rcases List.mem_cons.mp hp with h | h
      · right
        exact ⟨v₁, rfl, by rw [h, h0]⟩
      · left
        exact List.mem_cons_of_mem _ h
    · rcases List.mem_cons.mp hp with h | h
      · left
        rw [h]
        exact List.mem_cons_self _ _
      · rcases ih h with h' | h'
        · left
          exact List.mem_cons_of_mem _ h'
        · right
          exact h'

/-- One callback keeps every count at least 1 and adds exactly one to the total, as long
as the total stays below `INT_MAX`. -/
theorem callback_counts (m : MessageMap) (x : mavlink_message_t)
    (hpos : ∀ p ∈ m, 1 ≤ p.2.count) (hlt : totalCount m < 2147483647) :
    (∀ p ∈ (mavlink_message_receive_callback (some x) m).2, 1 ≤ p.2.count) ∧
      totalCount (mavlink_message_receive_callback (some x) m).2 = totalCount m + 1 := by
  cases h : m.find x.msgid with
  | none =>
    simp only [mavlink_message_receive_callback, h]
    refine ⟨?_, by rw [totalCount_assign _ _ _ h]⟩
    intro p hp
    rcases List.mem_cons.mp ((assign_perm m _ _ h).mem_iff.mp hp) with h1 | h1
    · rw [h1]
    · exact hpos p h1
  | some e =>
    simp only [mavlink_message_receive_callback, h]
    have hmem := mem_of_find m _ _ h
    have h1 : 1 ≤ e.count := hpos _ hmem
    have h2 : e.count ≤ totalCount m := count_le_totalCount m hpos _ hmem
    have hw : wrapInt32 (e.count + 1) = e.count + 1 := wrapInt32_eq_self _ (by omega) (by omega)
    refine ⟨?_, by rw [totalCount_incrementCount _ _ _ h, hw]; omega⟩
    intro p hp
    rcases mem_incrementCount m _ p hp with h3 | ⟨e', he', h3⟩
    · exact hpos p h3
    · rw [h] at he'
      simp only [Option.some.injEq] at he'
      subst he'
      rw [h3, hw]
      show 1 ≤ e.count + 1
      omega

theorem recordAll_counts (msgs : List mavlink_message_t) (m : MessageMap)
    (hpos : ∀ p ∈ m, 1 ≤ p.2.count) (hlt : totalCount m + msgs.length ≤ 2147483647) :
    (∀ p ∈ recordAll msgs m, 1 ≤ p.2.count) ∧
      totalCount (recordAll msgs m) = totalCount m + msgs.length := by
  induction msgs generalizing m with
  | nil => simpa [recordAll] using hpos
  | cons x rest ih =>
    simp only [List.length_cons, Nat.cast_add, Nat.cast_one] at hlt
    obtain ⟨h1, h2⟩ := callback_counts m x hpos (by omega)
    have := ih (mavlink_message_receive_callback (some x) m).2 h1 (by rw [h2]; omega)
    simp only [recordAll, List.foldl_cons, List.length_cons, Nat.cast_add, Nat.cast_one]
    simp only [recordAll] at this
    refine ⟨this.1, ?_⟩
    rw [this.2, h2]
    omega

theorem callback_singleton (x : mavlink_message_t) (c : Int) :
    (mavlink_message_receive_callback (some x)
        [(x.msgid, { count := c, last_message := x })]).2
      = [(x.msgid, { count := wrapInt32 (c + 1), last_message := x })] := by
  simp [mavlink_message_receive_callback, MessageMap.find, MessageMap.incrementCount]

theorem recordAll_replicate (x : mavlink_message_t) (n : Nat) (c : Int) :
    recordAll (List.replicate n x) [(x.msgid, { count := wrapInt32 c, last_message := x })]
      = [(x.msgid, { count := wrapInt32 (c + n), last_message := x })] := by
  induction n generalizing c with
  | zero => simp [recordAll]
  | succ n ih =>
    have := ih (c + 1)
    simp only [recordAll] at this
    simp only [recordAll, List.replicate_succ, List.foldl_cons]
    rw [callback_singleton, wrapInt32_succ, this]
    simp only [Nat.cast_add, Nat.cast_one]
    congr 4
    omega

theorem recordAll_last_message (msgs : List mavlink_message_t) (m : MessageMap) (k : Nat) :
    ((recordAll msgs m).find k).map (·.last_message) =
      match m.find k with
      | some e => some e.last_message
      | none => msgs.find? (fun x => decide (x.msgid = k)) := by
  induction msgs generalizing m with
  | nil => cases h : m.find k <;> simp [recordAll, h]
  | cons x rest ih =>
    have ih' := ih (mavlink_message_receive_callback (some x) m).2
    simp only [recordAll, List.foldl_cons] at ih' ⊢
    rw [ih']
    by_cases hk : k = x.msgid
    · subst hk
      cases h : m.find x.msgid with
      | none =>
        simp [mavlink_message_receive_callback, h, find_assign_self]
      | some e =>
        simp [mavlink_message_receive_callback, h, find_incrementCount_self _ _ _ h]
    · have hk' : ¬ x.msgid = k := fun h => hk h.symm
      cases h : m.find x.msgid with
      | none =>
        simp only [mavlink_message_receive_callback, h, find_assign_ne _ _ _ _ hk]
        cases m.find k <;> simp [hk']
      | some e =>
        simp only [mavlink_message_receive_callback, h, find_incrementCount_ne _ _ _ hk]
        cases m.find k <;> simp [hk']

theorem callback_empty (x : mavlink_message_t) :
    (mavlink_message_receive_callback (some x) []).2
      = [(x.msgid, { count := 1, last_message := x })] := rfl

theorem recordAll_cons (x : mavlink_message_t) (rest : List mavlink_message_t)
    (m : MessageMap) :
    recordAll (x :: rest) m = recordAll rest (mavlink_message_receive_callback (some x) m).2 :=
  rfl

theorem recordAll_replicate_succ (x : mavlink_message_t) (n : Nat) :
    recordAll (List.replicate (n + 1) x) []
      = [(x.msgid, { count := wrapInt32 (1 + (n : Int)), last_message := x })] := by
  have h4 : wrapInt32 1 = 1 := wrapInt32_eq_self 1 (by omega) (by omega)
  have h2 := recordAll_replicate x n 1
  rw [h4] at h2
  rw [List.replicate_succ, recordAll_cons, callback_empty]
  exact h2

theorem sumCounts_drain_singleton (k : Nat) (v : MessageInfo) :
    sumCounts (drain [(k, v)]).1 = v.count := by
  simp [drain, sumCounts]

theorem sumCounts_drain_replicate (x : mavlink_message_t) (n : Nat) :
    sumCounts (drain (recordAll (List.replicate (n + 1) x) [])).1
      = wrapInt32 (1 + (n : Int)) := by
  rw [recordAll_replicate_succ, sumCounts_drain_singleton]

/-! ## Claims about the aggregator -/

/-- C1 (amended): for every sequence of fewer than 2^31 non-null messages passed to the
callback starting from the empty map, the counts captured by the next drain sum to the
number of messages. -/
theorem no_loss_below_int_range (msgs : List mavlink_message_t)
    (h : msgs.length < 2147483648) :
    sumCounts (drain (recordAll msgs [])).1 = (msgs.length : Int) := by
  have := (recordAll_counts msgs [] (by simp) (by simp [totalCount, sumCounts]; omega)).2
  rw [drain_fst]
  simpa [totalCount, sumCounts] using this

theorem no_loss_below_int_range_witness :
    [msgA, msgB, msgA2, msgA].length < 2147483648 ∧
      sumCounts (drain (recordAll [msgA, msgB, msgA2, msgA] [])).1 = 4 :=
  ⟨by decide, no_loss_below_int_range [msgA, msgB, msgA2, msgA] (by decide)⟩

/-- C1 as stated fails: after 2^31 messages of one msgid the `int` counter has wrapped, and
the drained counts sum to -2^31 instead of 2^31. -/
theorem no_loss_fails_at_int_overflow :
    sumCounts (drain (recordAll (List.replicate 2147483648 msgA) [])).1 = -2147483648 ∧
      sumCounts (drain (recordAll (List.replicate 2147483648 msgA) [])).1
        ≠ ((List.replicate 2147483648 msgA).length : Int) := by
  have h : sumCounts (drain (recordAll (List.replicate 2147483648 msgA) [])).1
      = wrapInt32 (1 + ((2147483647 : Nat) : Int)) := sumCounts_drain_replicate msgA 2147483647
  have hw : wrapInt32 (1 + ((2147483647 : Nat) : Int)) = -2147483648 := by decide
  have hl : ((List.replicate 2147483648 msgA).length : Int) = 2147483648 := by
    rw [List.length_replicate]
    rfl
  rw [hw] at h
  rw [h, hl]
  exact ⟨rfl, by decide⟩


/-- C2: when the msgid of a non-null message is not a key of the map, the callback adds
one entry under that msgid with count 1 and the received message as last_message; every
other key keeps its entry and the entries afterwards are the old ones plus the new one. -/
theorem first_sighting_inserts (messages : MessageMap) (m : mavlink_message_t)
    (h : m.msgid ∉ messages.keys) :
    (mavlink_message_receive_callback (some m) messages).2.find m.msgid
        = some { count := 1, last_message := m } ∧
      (∀ k, k ≠ m.msgid →
        (mavlink_message_receive_callback (some m) messages).2.find k = messages.find k) ∧
      (mavlink_message_receive_callback (some m) messages).2.Perm
        ((m.msgid, { count := 1, last_message := m }) :: messages) := by
  have hf := (find_eq_none_iff _ _).mpr h
  simp only [mavlink_message_receive_callback, hf]
  exact ⟨find_assign_self _ _ _, fun k hk => find_assign_ne _ _ _ _ hk, assign_perm _ _ _ hf⟩

theorem first_sighting_inserts_witness :
    msgA.msgid ∉ MessageMap.keys [(30, { count := 2, last_message := msgB })] ∧
      (mavlink_message_receive_callback (some msgA)
          [(30, { count := 2, last_message := msgB })]).2.find msgA.msgid
        = some { count := 1, last_message := msgA } :=
  ⟨by decide, (first_sighting_inserts [(30, { count := 2, last_message := msgB })] msgA
    (by decide)).1⟩

/-- C3 (amended): when the msgid of a non-null message is already a key and the entry's
count is an `int` below `INT_MAX`, the callback increases that count by exactly 1 and leaves its
last_message, the keys and every other entry unchanged; and after any sequence of records
from the empty map each entry's last_message is the first message of its msgid. -/
theorem repeat_sighting_increments :
    (∀ (messages : MessageMap) (m : mavlink_message_t) (e : MessageInfo),
      messages.find m.msgid = some e → INT_MIN ≤ e.count → e.count < INT_MAX →
        (mavlink_message_receive_callback (some m) messages).2.find m.msgid
            = some { count := e.count + 1, last_message := e.last_message } ∧
          (mavlink_message_receive_callback (some m) messages).2.keys = messages.keys ∧
          (∀ k, k ≠ m.msgid →
            (mavlink_message_receive_callback (some m) messages).2.find k = messages.find k)) ∧
    (∀ (msgs : List mavlink_message_t) (k : Nat) (e : MessageInfo),
      (recordAll msgs []).find k = some e →
        msgs.find? (fun x => decide (x.msgid = k)) = some e.last_message) := by
  constructor
  · intro messages m e h hlo hc
    simp only [INT_MAX] at hc
    simp only [INT_MIN] at hlo
    simp only [mavlink_message_receive_callback, h]
    refine ⟨?_, keys_incrementCount _ _, fun k hk => find_incrementCount_ne _ _ _ hk⟩
    rw [find_incrementCount_self _ _ _ h, wrapInt32_eq_self _ (by omega) (by omega)]
  · intro msgs k e h
    have := recordAll_last_message msgs [] k
    simpa [h, MessageMap.find] using this.symm

theorem repeat_sighting_increments_witness :
    MessageMap.find [(0, { count := 3, last_message := msgA }),
        (30, { count := 2, last_message := msgB })] msgA2.msgid
        = some { count := 3, last_message := msgA } ∧
      (mavlink_message_receive_callback (some msgA2)
          [(0, { count := 3, last_message := msgA }),
            (30, { count := 2, last_message := msgB })]).2.find msgA2.msgid
        = some { count := 3 + 1, last_message := msgA } ∧
      [msgB, msgA, msgA2].find? (fun x => decide (x.msgid = 0)) = some msgA :=
  ⟨by decide,
    (repeat_sighting_increments.1 _ msgA2 { count := 3, last_message := msgA } (by decide)
      (by decide) (by decide)).1,
    repeat_sighting_increments.2 [msgB, msgA, msgA2] 0 { count := 2, last_message := msgA }
      (by decide)⟩

/-- C3 as stated fails: on an entry whose count is `INT_MAX` the callback does not
increase the count by 1; the `int` wraps to `INT_MIN`. -/
theorem repeat_sighting_fails_at_int_max :
    saturatedMap.find msgA.msgid = some { count := 2147483647, last_message := msgA } ∧
      (mavlink_message_receive_callback (some msgA) saturatedMap).2.find msgA.msgid
        = some { count := -2147483648, last_message := msgA } ∧
      (mavlink_message_receive_callback (some msgA) saturatedMap).2.find msgA.msgid
        ≠ some { count := 2147483647 + 1, last_message := msgA } := by
  decide

/-- C4: the snapshot-and-clear step returns the map's values in iteration order, one per
key (for a well-formed map exactly the entries reachable by `find`), and leaves the map
empty, so an immediate second drain returns the empty list. -/
theorem drain_returns_entries_and_clears (messages : MessageMap) :
    (drain messages).1 = messages.map Prod.snd ∧
      (drain messages).1.length = messages.keys.length ∧
      (messages.WF → ∀ e, e ∈ (drain messages).1 ↔ ∃ k, messages.find k = some e) ∧
      (drain messages).2 = [] ∧
      (drain (drain messages).2).1 = [] := by
  refine ⟨drain_fst _, by simp [drain_fst, MessageMap.keys], ?_, rfl, rfl⟩
  intro hwf e
  rw [drain_fst]
  constructor
  · intro he
    obtain ⟨⟨k, e'⟩, hmem, rfl⟩ := List.mem_map.mp he
    exact ⟨k, find_of_mem _ hwf _ _ hmem⟩
  · rintro ⟨k, hk⟩
    exact List.mem_map.mpr ⟨(k, e), mem_of_find _ _ _ hk, rfl⟩

theorem drain_returns_entries_and_clears_witness :
    MessageMap.WF [(0, { count := 3, last_message := msgA }),
        (30, { count := 1, last_message := msgB })] ∧
      (drain [(0, { count := 3, last_message := msgA }),
        (30, { count := 1, last_message := msgB })]).1
        = [{ count := 3, last_message := msgA }, { count := 1, last_message := msgB }] ∧
      ({ count := 1, last_message := msgB } : MessageInfo) ∈
        (drain [(0, { count := 3, last_message := msgA }),
          (30, { count := 1, last_message := msgB })]).1 :=
  ⟨by simp [MessageMap.WF, MessageMap.keys],
    (drain_returns_entries_and_clears _).1,
    ((drain_returns_entries_and_clears _).2.2.1 (by simp [MessageMap.WF, MessageMap.keys])
      _).mpr ⟨30, by decide⟩⟩

/-- C5: the callback returns false exactly when the message pointer is null; when it
returns false the map is unchanged, and when it returns true the message was non-null and
its msgid is a key of the map afterwards. -/
theorem callback_result (message : Option mavlink_message_t) (messages : MessageMap) :
    ((mavlink_message_receive_callback message messages).1 = false ↔ message = none) ∧
      ((mavlink_message_receive_callback message messages).1 = false →
        (mavlink_message_receive_callback message messages).2 = messages) ∧
      ((mavlink_message_receive_callback message messages).1 = true →
        ∃ m, message = some m ∧
          m.msgid ∈ (mavlink_message_receive_callback message messages).2.keys) := by
  cases message with
  | none => simp [mavlink_message_receive_callback]
  | some m =>
    cases h : messages.find m.msgid with
    | none =>
      simp only [mavlink_message_receive_callback, h]
      refine ⟨by simp, by simp, fun _ => ⟨m, rfl, ?_⟩⟩
      rw [← find_isSome_iff_mem_keys, find_assign_self]
      rfl
    | some e =>
      simp only [mavlink_message_receive_callback, h]
      refine ⟨by simp, by simp, fun _ => ⟨m, rfl, ?_⟩⟩
      rw [keys_incrementCount, ← find_isSome_iff_mem_keys, h]
      rfl

theorem callback_result_witness :
    (mavlink_message_receive_callback none [(30, { count := 1, last_message := msgB })]).1
        = false ∧
      (mavlink_message_receive_callback none [(30, { count := 1, last_message := msgB })]).2
        = [(30, { count := 1, last_message := msgB })] ∧
      (mavlink_message_receive_callback (some msgA)
        [(30, { count := 1, last_message := msgB })]).1 = true ∧
      ∃ m, some msgA = some m ∧ m.msgid ∈ (mavlink_message_receive_callback (some msgA)
        [(30, { count := 1, last_message := msgB })]).2.keys :=
  ⟨by decide,
    (callback_result none [(30, { count := 1, last_message := msgB })]).2.1 (by decide),
    by decide,
    (callback_result (some msgA) [(30, { count := 1, last_message := msgB })]).2.2
      (by decide)⟩

/-! ## Claims about the sorted snapshot -/

theorem countLess_eq_false_iff (a b : MessageInfo) :
    countLess b a = false ↔ a.count ≤ b.count := by
  simp [countLess]

theorem insertionSort_sortsByCount (l : List MessageInfo) :
    (List.insertionSort (fun a b => countLess b a = false) l).Perm l ∧
      (List.insertionSort (fun a b => countLess b a = false) l).Pairwise
        (fun a b => countLess b a = false) := by
  haveI : IsTotal MessageInfo (fun a b => countLess b a = false) :=
    ⟨fun a b => by
      simp only [countLess_eq_false_iff]
      exact le_total _ _⟩
  haveI : IsTrans MessageInfo (fun a b => countLess b a = false) :=
    ⟨fun a b c hab hbc => by
      simp only [countLess_eq_false_iff] at hab hbc ⊢
      exact le_trans hab hbc⟩
  exact ⟨List.perm_insertionSort _ l, List.sorted_insertionSort _ l⟩

theorem stableSort_sortsByCount : SortsByCount stableSort := fun l =>
  insertionSort_sortsByCount l

theorem messagesSorted_counts_sorted (env : Env) (h : SortsByCount env.sort)
    (messages : MessageMap) :
    ((messagesSorted env messages).map (·.count)).Sorted (· ≤ ·) := by
  have h2 := (h (drain messages).1).2
  simp only [List.Sorted, messagesSorted, List.pairwise_map]
  exact h2.imp (fun {a b} hab => (countLess_eq_false_iff a b).mp hab)

set_option maxRecDepth 100000

/-- On two entries of equal count `std::sort` of the GNU C++ library keeps the order. -/
theorem std_sort_keeps_two_tied :
    messagesSorted libstdcxxEnv tiedMap = (drain tiedMap).1 := by
  decide

/-- C7 as stated fails: of seventeen entries of equal count, in the snapshot in the order
of their keys 0 .. 16, `std::sort` of the GNU C++ library renders the entry of key 8 first
and the entry of key 0 tenth, so the entries of keys 0 and 8 are not in the relative order
of the snapshot. -/
theorem equal_counts_reordered_by_std_sort :
    (drain seventeenTied).1.map (·.count) = List.replicate 17 1 ∧
      (drain seventeenTied).1.map (·.last_message.msgid)
        = [0, 1, 2, 3, 4, 5, 6, 7, 8, 9, 10, 11, 12, 13, 14, 15, 16] ∧
      (messagesSorted libstdcxxEnv seventeenTied).map (·.last_message.msgid)
        = [8, 16, 15, 14, 13, 12, 11, 10, 9, 0, 7, 6, 5, 4, 3, 2, 1] ∧
      messagesSorted libstdcxxEnv seventeenTied ≠ (drain seventeenTied).1 := by
  decide

/-- C7 (amended): for every sort with the guarantee of `std::sort`, the entries of any one
count are rendered exactly once each, in an order the sort is free to choose; when the
counts of the snapshot are pairwise distinct the rendered order is the one a stable sort
produces. -/
theorem equal_counts_kept_up_to_order (env : Env) (h : SortsByCount env.sort)
    (messages : MessageMap) :
    (∀ c : Int, ((messagesSorted env messages).filter (fun e => decide (e.count = c))).Perm
        ((drain messages).1.filter (fun e => decide (e.count = c)))) ∧
      (((drain messages).1.map (·.count)).Nodup →
        messagesSorted env messages = stableSort countLess (drain messages).1) := by
  have hperm : (messagesSorted env messages).Perm (drain messages).1 := (h _).1
  refine ⟨fun c => hperm.filter _, ?_⟩
  intro hnodup
  have hst := stableSort_sortsByCount (drain messages).1
  have strict : ∀ l : List MessageInfo, l.Perm (drain messages).1 →
      l.Pairwise (fun a b => countLess b a = false) →
      l.Pairwise (fun a b => a.count < b.count) := by
    intro l hl hp
    have hnd : (l.map (·.count)).Nodup := (hl.map _).nodup_iff.mpr hnodup
    have hne : l.Pairwise (fun a b => a.count ≠ b.count) := by
      simpa [List.Nodup, List.pairwise_map] using hnd
    exact (hp.and hne).imp (fun {a b} hab =>
      lt_of_le_of_ne ((countLess_eq_false_iff a b).mp hab.1) hab.2)
  haveI : IsAntisymm MessageInfo (fun a b => a.count < b.count) :=
    ⟨fun a b hab hba => absurd hab (not_lt.mpr (le_of_lt hba))⟩
  exact List.eq_of_perm_of_sorted (hperm.trans hst.1.symm)
    (strict _ hperm (h _).2) (strict _ hst.1 hst.2)

theorem equal_counts_kept_up_to_order_witness :
    SortsByCount sampleEnv.sort ∧
      ((messagesSorted sampleEnv tiedMap).filter (fun e => decide (e.count = 2))).Perm
        ((drain tiedMap).1.filter (fun e => decide (e.count = 2))) ∧
      ((drain unsortedMap).1.map (·.count)).Nodup ∧
      messagesSorted sampleEnv unsortedMap = stableSort countLess (drain unsortedMap).1 :=
  ⟨stableSort_sortsByCount,
    (equal_counts_kept_up_to_order sampleEnv stableSort_sortsByCount tiedMap).1 2,
    by decide,
    (equal_counts_kept_up_to_order sampleEnv stableSort_sortsByCount unsortedMap).2
      (by decide)⟩

/-! ## Claims about the decoder -/

theorem toString_natCast (n : Nat) : toString (n : Int) = toString n := rfl

/-- C9: for a message whose msgid has no schema entry, `printMessage` emits exactly
`MSGID=<msgid> (sysid=<sysid>, compid=<compid>) len=<len>` and a newline, the four numbers
in decimal from the header, without a field list; it always produces this text. -/
theorem unknown_message_fallback (env : Env) (mav_message : mavlink_message_t)
    (h : mavlink_get_message_info env mav_message = none) :
    printMessage env mav_message
      = some ("MSGID=" ++ toString mav_message.msgid
          ++ " (sysid=" ++ toString mav_message.sysid
          ++ ", compid=" ++ toString mav_message.compid
          ++ ") len=" ++ toString mav_message.len ++ "\n") := by
  simp only [printMessage, h, toString_natCast]

theorem unknown_message_fallback_witness :
    mavlink_get_message_info sampleEnv msgB = none ∧
      printMessage sampleEnv msgB = some "MSGID=30 (sysid=1, compid=1) len=4\n" :=
  ⟨by decide, unknown_message_fallback sampleEnv msgB (by decide)⟩

theorem roundHalfEven_intCast (z : ℤ) : roundHalfEven (z : ℚ) = z := by
  simp [roundHalfEven]

theorem floor_le_roundHalfEven (x : ℚ) : ⌊x⌋ ≤ roundHalfEven x := by
  unfold roundHalfEven
  split_ifs <;> omega

theorem roundHalfEven_le_floor_add_one (x : ℚ) : roundHalfEven x ≤ ⌊x⌋ + 1 := by
  unfold roundHalfEven
  split_ifs <;> omega

theorem roundHalfEven_mono {x y : ℚ} (h : x ≤ y) : roundHalfEven x ≤ roundHalfEven y := by
  have hf : ⌊x⌋ ≤ ⌊y⌋ := Int.floor_mono h
  rcases lt_or_eq_of_le hf with hlt | heq
  · calc roundHalfEven x ≤ ⌊x⌋ + 1 := roundHalfEven_le_floor_add_one x
      _ ≤ ⌊y⌋ := hlt
      _ ≤ roundHalfEven y := floor_le_roundHalfEven y
  · have hxy : x - ⌊x⌋ ≤ y - ⌊y⌋ := by rw [heq]; linarith
    unfold roundHalfEven
    rw [heq]
    split_ifs <;> first | omega | (exfalso; linarith)

/-- Distance characterisation: an integer within less than one half of `x` is its rounding. -/
theorem roundHalfEven_eq_of_abs_lt (x : ℚ) (m : ℤ) (h : |x - m| < 1 / 2) :
    roundHalfEven x = m := by
  rw [abs_lt] at h
  have h1 : (m : ℚ) - 1 / 2 < x := by linarith [h.1]
  have h2 : x < (m : ℚ) + 1 / 2 := by linarith [h.2]
  by_cases hx : (m : ℚ) ≤ x
  · have hfl : ⌊x⌋ = m := Int.floor_eq_iff.mpr ⟨hx, by linarith⟩
    unfold roundHalfEven
    rw [hfl]
    have : x - m < 1 / 2 := by linarith
    rw [if_pos this]
  · push_neg at hx
    have hfl : ⌊x⌋ = m - 1 := Int.floor_eq_iff.mpr ⟨by push_cast; linarith, by push_cast; linarith⟩
    unfold roundHalfEven
    rw [hfl]
    have h3 : ¬ (x - ((m - 1 : ℤ) : ℚ) < 1 / 2) := by push_cast; linarith
    have h4 : 1 / 2 < x - ((m - 1 : ℤ) : ℚ) := by push_cast; linarith
    rw [if_neg h3, if_pos h4]
    omega

/-! ### Rounding to binary32 -/

theorem roundF32_zero : roundF32 0 = 0 := by simp [roundF32]

/-- For a positive value between `2 ^ (e + 23)` and `2 ^ (e + 24)` the rounding is the
nearest multiple of `2 ^ e`. -/
theorem roundF32_of_binade (x : ℚ) (e : ℤ) (h1 : (2 : ℚ) ^ (e + 23) ≤ x)
    (h2 : x < (2 : ℚ) ^ (e + 24)) :
    roundF32 x = (roundHalfEven (x / 2 ^ e) : ℚ) * 2 ^ e := by
  have hpos : 0 < x := lt_of_lt_of_le (by positivity) h1
  have hlog : Int.log 2 |x| = e + 23 := by
    rw [abs_of_pos hpos]
    have := (Int.zpow_le_iff_le_log (b := 2) (by norm_num) hpos (x := e + 23)).mp h1
    have h3 := (Int.lt_zpow_iff_log_lt (b := 2) (by norm_num) hpos (x := e + 24)).mp h2
    omega
  unfold roundF32
  rw [if_neg hpos.ne', hlog]
  have : e + 23 - 23 = e := by ring
  rw [this]

theorem roundF32_eq_of_abs_lt (x : ℚ) (e m : ℤ) (h1 : (2 : ℚ) ^ (e + 23) ≤ x)
    (h2 : x < (2 : ℚ) ^ (e + 24)) (h : |x / 2 ^ e - m| < 1 / 2) :
    roundF32 x = (m : ℚ) * 2 ^ e := by
  rw [roundF32_of_binade x e h1 h2, roundHalfEven_eq_of_abs_lt _ m h]

theorem binade_bounds (x : ℚ) (hx : 0 < x) :
    (2 : ℚ) ^ (Int.log 2 x - 23 + 23) ≤ x ∧ x < (2 : ℚ) ^ (Int.log 2 x - 23 + 24) := by
  have h1 := Int.zpow_log_le_self (b := 2) (by norm_num) hx
  have h2 := Int.lt_zpow_succ_log_self (b := 2) (by norm_num) x
  have e1 : Int.log 2 x - 23 + 23 = Int.log 2 x := by ring
  have e2 : Int.log 2 x - 23 + 24 = Int.log 2 x + 1 := by ring
  rw [e1, e2]
  exact ⟨by exact_mod_cast h1, by exact_mod_cast h2⟩

theorem scaled_bounds (x : ℚ) (e : ℤ) (h1 : (2 : ℚ) ^ (e + 23) ≤ x)
    (h2 : x < (2 : ℚ) ^ (e + 24)) :
    (2 : ℚ) ^ (23 : ℕ) ≤ x / 2 ^ e ∧ x / 2 ^ e < (2 : ℚ) ^ (24 : ℕ) := by
  have hp : (0 : ℚ) < 2 ^ e := by positivity
  have a1 : (2 : ℚ) ^ (e + 23) = 2 ^ (23 : ℕ) * 2 ^ e := by
    rw [zpow_add₀ (by norm_num), mul_comm]
    norm_cast
  have a2 : (2 : ℚ) ^ (e + 24) = 2 ^ (24 : ℕ) * 2 ^ e := by
    rw [zpow_add₀ (by norm_num), mul_comm]
    norm_cast
  rw [a1] at h1
  rw [a2] at h2
  exact ⟨(le_div_iff₀ hp).mpr h1, (div_lt_iff₀ hp).mpr h2⟩

theorem roundHalfEven_scaled_bounds (x : ℚ) (e : ℤ) (h1 : (2 : ℚ) ^ (e + 23) ≤ x)
    (h2 : x < (2 : ℚ) ^ (e + 24)) :
    (2 : ℤ) ^ (23 : ℕ) ≤ roundHalfEven (x / 2 ^ e) ∧
      roundHalfEven (x / 2 ^ e) ≤ (2 : ℤ) ^ (24 : ℕ) := by
  obtain ⟨b1, b2⟩ := scaled_bounds x e h1 h2
  constructor
  · have := roundHalfEven_mono (x := (((2 : ℤ) ^ (23 : ℕ) : ℤ) : ℚ)) (y := x / 2 ^ e)
      (by push_cast; exact b1)
    rwa [roundHalfEven_intCast] at this
  · have := roundHalfEven_mono (x := x / 2 ^ e) (y := (((2 : ℤ) ^ (24 : ℕ) : ℤ) : ℚ))
      (by push_cast; exact b2.le)
    rwa [roundHalfEven_intCast] at this

theorem roundF32_nonneg (x : ℚ) (hx : 0 ≤ x) : 0 ≤ roundF32 x := by
  rcases hx.eq_or_lt with h | h
  · rw [← h, roundF32_zero]
  · obtain ⟨h1, h2⟩ := binade_bounds x h
    rw [roundF32_of_binade x _ h1 h2]
    have := (roundHalfEven_scaled_bounds x _ h1 h2).1
    have h3 : (0 : ℚ) ≤ (roundHalfEven (x / 2 ^ (Int.log 2 x - 23)) : ℚ) := by
      have : (0 : ℤ) ≤ roundHalfEven (x / 2 ^ (Int.log 2 x - 23)) := by
        have h23 : (0 : ℤ) ≤ 2 ^ (23 : ℕ) := by norm_num
        omega
      exact_mod_cast this
    positivity

theorem roundF32_mono {x y : ℚ} (hx : 0 ≤ x) (hxy : x ≤ y) : roundF32 x ≤ roundF32 y := by
  rcases hx.eq_or_lt with h | h
  · rw [← h, roundF32_zero]
    exact roundF32_nonneg y (hx.trans hxy)
  · have hy : 0 < y := lt_of_lt_of_le h hxy
    obtain ⟨x1, x2⟩ := binade_bounds x h
    obtain ⟨y1, y2⟩ := binade_bounds y hy
    have hlog : Int.log 2 x ≤ Int.log 2 y := Int.log_mono_right h hxy
    rw [roundF32_of_binade x _ x1 x2, roundF32_of_binade y _ y1 y2]
    rcases hlog.eq_or_lt with heq | hlt
    · rw [heq]
      have hp : (0 : ℚ) < 2 ^ (Int.log 2 y - 23) := by positivity
      have : x / 2 ^ (Int.log 2 y - 23) ≤ y / 2 ^ (Int.log 2 y - 23) :=
        div_le_div_of_nonneg_right hxy hp.le
      have := roundHalfEven_mono this
      have hc : (roundHalfEven (x / 2 ^ (Int.log 2 y - 23)) : ℚ)
          ≤ (roundHalfEven (y / 2 ^ (Int.log 2 y - 23)) : ℚ) := by exact_mod_cast this
      exact mul_le_mul_of_nonneg_right hc hp.le
    · have ux := (roundHalfEven_scaled_bounds x _ x1 x2).2
      have ly := (roundHalfEven_scaled_bounds y _ y1 y2).1
      have hpx : (0 : ℚ) < 2 ^ (Int.log 2 x - 23) := by positivity
      have hpy : (0 : ℚ) < 2 ^ (Int.log 2 y - 23) := by positivity
      have c1 : (roundHalfEven (x / 2 ^ (Int.log 2 x - 23)) : ℚ) ≤ 2 ^ (24 : ℕ) := by
        exact_mod_cast ux
      have c2 : (2 : ℚ) ^ (23 : ℕ) ≤ (roundHalfEven (y / 2 ^ (Int.log 2 y - 23)) : ℚ) := by
        exact_mod_cast ly
      calc (roundHalfEven (x / 2 ^ (Int.log 2 x - 23)) : ℚ) * 2 ^ (Int.log 2 x - 23)
          ≤ 2 ^ (24 : ℕ) * 2 ^ (Int.log 2 x - 23) := mul_le_mul_of_nonneg_right c1 hpx.le
        _ = 2 ^ (Int.log 2 x + 1) := by
            rw [← zpow_natCast, ← zpow_add₀ (by norm_num)]
            congr 1
            push_cast
            ring
        _ ≤ 2 ^ (Int.log 2 y) := zpow_le_zpow_right₀ (by norm_num) (by omega)
        _ = 2 ^ (23 : ℕ) * 2 ^ (Int.log 2 y - 23) := by
            rw [← zpow_natCast, ← zpow_add₀ (by norm_num)]
            congr 1
            push_cast
            ring
        _ ≤ _ := mul_le_mul_of_nonneg_right c2 hpy.le

/-- Values with at most 24 significant bits are not changed by the rounding. -/
theorem roundF32_exact (m k : ℕ) (hm : m < 2 ^ 24) :
    roundF32 ((m : ℚ) / 2 ^ k) = (m : ℚ) / 2 ^ k := by
  rcases Nat.eq_zero_or_pos m with h0 | hpos
  · simp [h0, roundF32_zero]
  · have hx : (0 : ℚ) < (m : ℚ) / 2 ^ k := by positivity
    obtain ⟨h1, h2⟩ := binade_bounds _ hx
    rw [roundF32_of_binade _ _ h1 h2]
    have hlt : (m : ℚ) / 2 ^ k < (2 : ℚ) ^ ((24 : ℤ) - k) := by
      rw [zpow_sub₀ (by norm_num), zpow_natCast]
      have : (m : ℚ) < 2 ^ (24 : ℤ) := by
        have h24 : (2 : ℚ) ^ (24 : ℤ) = ((2 ^ 24 : ℕ) : ℚ) := by norm_num
        rw [h24]
        exact_mod_cast hm
      exact div_lt_div_of_pos_right this (by positivity)
    have hlog := (Int.lt_zpow_iff_log_lt (b := 2) (by norm_num) hx (x := (24 : ℤ) - k)).mp hlt
    have hj : ((-(k : ℤ) - (Int.log 2 ((m : ℚ) / 2 ^ k) - 23)).toNat : ℤ)
        = -(k : ℤ) - (Int.log 2 ((m : ℚ) / 2 ^ k) - 23) := Int.toNat_of_nonneg (by omega)
    generalize Int.log 2 ((m : ℚ) / 2 ^ k) - 23 = e at hj ⊢
    generalize (-(k : ℤ) - e).toNat = j at hj
    have hpow : (2 : ℚ) ^ j * 2 ^ e = (2 ^ k)⁻¹ := by
      rw [← zpow_natCast, ← zpow_add₀ (by norm_num), hj]
      have : -(k : ℤ) - e + e = -(k : ℤ) := by ring
      rw [this, zpow_neg, zpow_natCast]
    have hscaled : (m : ℚ) / 2 ^ k / 2 ^ e = (((m : ℤ) * 2 ^ j : ℤ) : ℚ) := by
      have he : (2 : ℚ) ^ e ≠ 0 := by positivity
      rw [div_eq_iff he]
      push_cast
      rw [mul_assoc, hpow, div_eq_mul_inv]
    rw [hscaled, roundHalfEven_intCast]
    push_cast
    rw [mul_assoc, hpow, div_eq_mul_inv]

theorem roundF32_natCast (m : ℕ) (hm : m < 2 ^ 24) : roundF32 (m : ℚ) = m := by
  simpa using roundF32_exact m 0 hm


/-- The two roundings of the quotient and of the sum do not move the result across an
integer when the quotient `X` keeps a distance of `2 ^ -k` from the next half and
`(n + 1) * 2 ^ k` fits 24 bits. -/
theorem floor_round_add_half (X : ℚ) (n k : ℕ) (hX0 : 0 ≤ X) (hlo : (n : ℚ) ≤ X + 1 / 2)
    (hhi : X + 1 / 2 ≤ (n : ℚ) + 1 - 1 / 2 ^ (k + 1))
    (hrep : (n + 1) * 2 ^ (k + 1) ≤ 2 ^ 24) :
    ⌊roundF32 (roundF32 X + 1 / 2)⌋ = (n : ℤ) := by
  have hq0 : 0 ≤ roundF32 X := roundF32_nonneg X hX0
  have hpk : (0 : ℚ) < 2 ^ (k + 1) := by positivity
  have hk1 : 1 ≤ 2 ^ k := Nat.one_le_two_pow
  have hk2 : 2 ^ (k + 1) = 2 * 2 ^ k := by ring
  have hn24 : (n + 1) * 2 ≤ 2 ^ 24 := by
    calc (n + 1) * 2 ≤ (n + 1) * 2 ^ (k + 1) :=
          Nat.mul_le_mul_left _ (by rw [hk2]; omega)
      _ ≤ 2 ^ 24 := hrep
  -- lower bound
  have hlower : (n : ℚ) ≤ roundF32 (roundF32 X + 1 / 2) := by
    rcases Nat.eq_zero_or_pos n with h0 | hpos
    · rw [h0]
      exact_mod_cast roundF32_nonneg _ (by linarith)
    · have ha : roundF32 (((2 * n - 1 : ℕ) : ℚ) / 2 ^ 1) = ((2 * n - 1 : ℕ) : ℚ) / 2 ^ 1 :=
        roundF32_exact _ 1 (by omega)
      have hcast : ((2 * n - 1 : ℕ) : ℚ) = 2 * (n : ℚ) - 1 := by
        rw [Nat.cast_sub (by omega)]
        push_cast
        ring
      have hax : ((2 * n - 1 : ℕ) : ℚ) / 2 ^ 1 ≤ X := by
        rw [hcast]
        linarith
      have ha0 : (0 : ℚ) ≤ ((2 * n - 1 : ℕ) : ℚ) / 2 ^ 1 := by positivity
      have h1 := roundF32_mono ha0 hax
      rw [ha, hcast] at h1
      have hn : roundF32 ((n : ℕ) : ℚ) = n := roundF32_natCast n (by omega)
      have h2 := roundF32_mono (x := (n : ℚ)) (y := roundF32 X + 1 / 2) (by positivity)
        (by linarith)
      rwa [hn] at h2
  -- upper bound
  have hupper : roundF32 (roundF32 X + 1 / 2) < (n : ℚ) + 1 := by
    have hN : (2 * n + 1) * 2 ^ k - 1 < 2 ^ 24 := by
      have : (2 * n + 1) * 2 ^ k ≤ (n + 1) * 2 ^ (k + 1) := by
        rw [hk2]
        nlinarith
      omega
    have hb : roundF32 ((((2 * n + 1) * 2 ^ k - 1 : ℕ) : ℚ) / 2 ^ (k + 1))
        = (((2 * n + 1) * 2 ^ k - 1 : ℕ) : ℚ) / 2 ^ (k + 1) := roundF32_exact _ _ hN
    have hbcast : (((2 * n + 1) * 2 ^ k - 1 : ℕ) : ℚ) / 2 ^ (k + 1)
        = (n : ℚ) + 1 / 2 - 1 / 2 ^ (k + 1) := by
      rw [Nat.cast_sub (by nlinarith)]
      push_cast
      field_simp
      ring
    have hM : (n + 1) * 2 ^ (k + 1) - 1 < 2 ^ 24 := by omega
    have hc : roundF32 ((((n + 1) * 2 ^ (k + 1) - 1 : ℕ) : ℚ) / 2 ^ (k + 1))
        = (((n + 1) * 2 ^ (k + 1) - 1 : ℕ) : ℚ) / 2 ^ (k + 1) := roundF32_exact _ _ hM
    have hccast : (((n + 1) * 2 ^ (k + 1) - 1 : ℕ) : ℚ) / 2 ^ (k + 1)
        = (n : ℚ) + 1 - 1 / 2 ^ (k + 1) := by
      rw [Nat.cast_sub (by nlinarith)]
      push_cast
      field_simp
    have h1 := roundF32_mono (x := X) (y := (n : ℚ) + 1 / 2 - 1 / 2 ^ (k + 1)) hX0
      (by linarith)
    rw [← hbcast, hb, hbcast] at h1
    have h2 := roundF32_mono (x := roundF32 X + 1 / 2) (y := (n : ℚ) + 1 - 1 / 2 ^ (k + 1))
      (by linarith) (by linarith)
    rw [← hccast, hc, hccast] at h2
    have : (0 : ℚ) < 1 / 2 ^ (k + 1) := by positivity
    linarith
  exact Int.floor_eq_iff.mpr ⟨by exact_mod_cast hlower, by exact_mod_cast hupper⟩


theorem rate_of_floor (count duration_ms : Int) (n : Int) (hd : duration_ms ≠ 0)
    (h0 : 0 ≤ roundF32
      (roundF32 (roundF32 (roundF32 count * 1000) / roundF32 duration_ms) + 1 / 2))
    (hfl : ⌊roundF32
      (roundF32 (roundF32 (roundF32 count * 1000) / roundF32 duration_ms) + 1 / 2)⌋ = n)
    (hlo : -2147483648 ≤ n) (hhi : n ≤ 2147483647) :
    rate count duration_ms = some n := by
  unfold rate
  rw [if_neg hd]
  simp only [truncToInt, if_pos h0, hfl, INT_MIN, INT_MAX]
  rw [if_pos ⟨hlo, hhi⟩]

theorem rate_nat (c d : ℕ) (hd : 0 < d) (hb : 1000 * c + 2 * d ≤ 4194304) :
    rate (c : ℤ) (d : ℤ) = some (((2000 * c + d) / (2 * d) : ℕ) : ℤ) := by
  have hc24 : c * 1000 < 2 ^ 24 := by omega
  have hd24 : d < 2 ^ 24 := by omega
  have r1 : roundF32 (((c : ℤ) : ℚ)) = (c : ℚ) := by
    rw [Int.cast_natCast]
    exact roundF32_natCast c (by omega)
  have r2 : roundF32 ((c : ℚ) * 1000) = (c : ℚ) * 1000 := by
    have := roundF32_natCast (c * 1000) hc24
    push_cast at this
    exact this
  have r3 : roundF32 (((d : ℤ) : ℚ)) = (d : ℚ) := by
    rw [Int.cast_natCast]
    exact roundF32_natCast d hd24
  have hdq : (0 : ℚ) < d := by exact_mod_cast hd
  -- the exact quotient and the integer it rounds to
  have hX0 : (0 : ℚ) ≤ (c : ℚ) * 1000 / d := by positivity
  have hdiv1 : (2000 * c + d) / (2 * d) * (2 * d) ≤ 2000 * c + d := Nat.div_mul_le_self _ _
  have hdiv2 : 2000 * c + d < 2 * d * ((2000 * c + d) / (2 * d) + 1) :=
    Nat.lt_mul_div_succ _ (by omega)
  generalize (2000 * c + d) / (2 * d) = n at hdiv1 hdiv2 ⊢
  -- the power of two between 2 d and 4 d
  have hclog1 : 2 * d ≤ 2 ^ Nat.clog 2 (2 * d) := Nat.le_pow_clog (by norm_num) _
  have hclog2 : 2 ^ (Nat.clog 2 (2 * d)).pred < 2 * d :=
    Nat.pow_pred_clog_lt_self (by norm_num) (by omega)
  have hkpos : 0 < Nat.clog 2 (2 * d) := Nat.clog_pos (by norm_num) (by omega)
  obtain ⟨k, hk⟩ : ∃ k, Nat.clog 2 (2 * d) = k + 1 := ⟨_, (Nat.succ_pred_eq_of_pos hkpos).symm⟩
  rw [hk] at hclog1 hclog2
  simp only [Nat.pred_succ] at hclog2
  have hk2 : 2 ^ (k + 1) = 2 * 2 ^ k := by ring
  have hrep : (n + 1) * 2 ^ (k + 1) ≤ 2 ^ 24 := by
    have h1 : (n + 1) * 2 ^ (k + 1) ≤ (n + 1) * (4 * d) :=
      Nat.mul_le_mul_left _ (by rw [hk2]; omega)
    have h2 : (n + 1) * (4 * d) ≤ 4000 * c + 6 * d := by nlinarith
    omega
  have hlo : (n : ℚ) ≤ (c : ℚ) * 1000 / d + 1 / 2 := by
    have h : ((n * (2 * d) : ℕ) : ℚ) ≤ ((2000 * c + d : ℕ) : ℚ) := by exact_mod_cast hdiv1
    push_cast at h
    rw [← sub_le_iff_le_add, le_div_iff₀ hdq]
    linarith
  have hhi : (c : ℚ) * 1000 / d + 1 / 2 ≤ (n : ℚ) + 1 - 1 / 2 ^ (k + 1) := by
    have h : ((2000 * c + d + 1 : ℕ) : ℚ) ≤ ((2 * d * (n + 1) : ℕ) : ℚ) := by
      exact_mod_cast hdiv2
    push_cast at h
    have hpow : ((2 * d : ℕ) : ℚ) ≤ ((2 ^ (k + 1) : ℕ) : ℚ) := by exact_mod_cast hclog1
    push_cast at hpow
    have hinv : (1 : ℚ) / 2 ^ (k + 1) ≤ 1 / (2 * d) :=
      one_div_le_one_div_of_le (by positivity) hpow
    have hx : (c : ℚ) * 1000 / d + 1 / 2 ≤ (n : ℚ) + 1 - 1 / (2 * d) := by
      rw [div_add_div _ _ hdq.ne' (by norm_num), le_sub_iff_add_le,
        div_add_div _ _ (by positivity) (by positivity), div_le_iff₀ (by positivity)]
      nlinarith
    linarith
  have hfl := floor_round_add_half _ n k hX0 hlo hhi hrep
  have hn : n + 1 ≤ 2 ^ 24 := le_trans (Nat.le_mul_of_pos_right _ (by positivity)) hrep
  refine rate_of_floor _ _ _ (by exact_mod_cast hd.ne') ?_ ?_ (by omega) (by omega)
  · rw [r1, r2, r3]
    exact roundF32_nonneg _ (by have := roundF32_nonneg _ hX0; linarith)
  · rw [r1, r2, r3]
    exact hfl

/-- C8 (amended): for every count >= 0 and elapsed_ms > 0 with
1000 * count + 2 * elapsed_ms <= 2^22, the rate rendered by `run`, computed in `float`,
is `count * 1000 / elapsed_ms` rounded to the nearest integer with halves up, that is
`floor ((2000 * count + elapsed_ms) / (2 * elapsed_ms))`. -/
theorem rate_eq_rateExact_of_small (count elapsed_ms : Int) (hc : 0 ≤ count)
    (hd : 0 < elapsed_ms) (hb : 1000 * count + 2 * elapsed_ms ≤ 4194304) :
    rate count elapsed_ms = some (rateExact count elapsed_ms) := by
  lift count to ℕ using hc
  lift elapsed_ms to ℕ using hd.le
  have := rate_nat count elapsed_ms (by exact_mod_cast hd) (by exact_mod_cast hb)
  rw [this, rateExact]
  norm_cast


theorem rate_8620_1041 : rate 8620 1041 = some 8281 := by
  have r1 : roundF32 (((8620 : ℤ) : ℚ)) = 8620 := by
    have := roundF32_natCast 8620 (by norm_num)
    simpa using this
  have r2 : roundF32 ((8620 : ℚ) * 1000) = 8620000 := by
    have := roundF32_natCast 8620000 (by norm_num)
    norm_num at this ⊢
    exact this
  have r3 : roundF32 (((1041 : ℤ) : ℚ)) = 1041 := by
    have := roundF32_natCast 1041 (by norm_num)
    simpa using this
  have r4 : roundF32 ((8620000 : ℚ) / 1041) = 16561 / 2 := by
    have := roundF32_eq_of_abs_lt ((8620000 : ℚ) / 1041) (-10) 8479232
      (by norm_num) (by norm_num) (by rw [abs_lt]; norm_num)
    rw [this]
    norm_num
  have r5 : roundF32 ((16561 : ℚ) / 2 + 1 / 2) = 8281 := by
    have := roundF32_natCast 8281 (by norm_num)
    norm_num at this ⊢
    exact this
  refine rate_of_floor _ _ _ (by norm_num) ?_ ?_ (by norm_num) (by norm_num)
  · rw [r1, r2, r3, r4, r5]
    norm_num
  · rw [r1, r2, r3, r4, r5]
    norm_num

theorem rate_eq_rateExact_of_small_witness :
    ((0 : Int) ≤ 10 ∧ (0 : Int) < 1000 ∧ (1000 * 10 + 2 * 1000 : Int) ≤ 4194304) ∧
      rate 10 1000 = some 10 ∧ rate 7 2000 = some 4 :=
  ⟨by decide,
    (rate_eq_rateExact_of_small 10 1000 (by decide) (by decide) (by decide)).trans
      (by decide),
    (rate_eq_rateExact_of_small 7 2000 (by decide) (by decide) (by decide)).trans
      (by decide)⟩

/-- C8 as stated fails: for count = 8620 and elapsed_ms = 1041 the quotient 8280.4995...
is rounded to the `float` 8280.5, so the rendered rate is 8281, while the exact rounding
`floor ((2000 * count + elapsed_ms) / (2 * elapsed_ms))` is 8280. -/
theorem rate_differs_from_exact_rounding :
    rate 8620 1041 = some 8281 ∧ rateExact 8620 1041 = 8280 ∧
      rate 8620 1041 ≠ some (rateExact 8620 1041) := by
  have h2 : rateExact 8620 1041 = 8280 := by decide
  refine ⟨rate_8620_1041, h2, ?_⟩
  rw [rate_8620_1041, h2]
  decide

/-! ## Histories of record and drain steps -/

theorem recordAll_append (l₁ l₂ : List mavlink_message_t) (m : MessageMap) :
    recordAll (l₁ ++ l₂) m = recordAll l₂ (recordAll l₁ m) := by
  simp [recordAll, List.foldl_append]

theorem recordAll_snoc (l : List mavlink_message_t) (x : mavlink_message_t) (m : MessageMap) :
    recordAll (l ++ [x]) m = (mavlink_message_receive_callback (some x) (recordAll l m)).2 := by
  rw [recordAll_append]
  rfl

theorem runSteps_snoc (steps : List Step) (st : Step) :
    runSteps (steps ++ [st]) = applyStep (runSteps steps) st := by
  simp [runSteps, List.foldl_append]

theorem recordedSinceDrain_snoc (steps : List Step) (st : Step) :
    recordedSinceDrain (steps ++ [st]) =
      match st with
      | Step.callback (some m) => recordedSinceDrain steps ++ [m]
      | Step.callback none => recordedSinceDrain steps
      | Step.drain => [] := by
  simp [recordedSinceDrain, List.foldl_append]

/-- A drain empties the map, so the map of a history is the one its records since the
last drain build from the empty map. -/
theorem runSteps_eq_recordAll (steps : List Step) :
    runSteps steps = recordAll (recordedSinceDrain steps) [] := by
  induction steps using List.reverseRecOn with
  | nil => rfl
  | append_singleton init st ih =>
    rw [runSteps_snoc, recordedSinceDrain_snoc, ih]
    cases st with
    | callback message =>
      cases message with
      | none => rfl
      | some m => simp only [applyStep, recordAll_snoc]
    | drain => rfl

theorem wf_recordAll (msgs : List mavlink_message_t) (m : MessageMap) (hm : m.WF) :
    (recordAll msgs m).WF := by
  induction msgs generalizing m with
  | nil => exact hm
  | cons x rest ih => exact ih _ (wf_callback (some x) m hm)

theorem wf_nil : MessageMap.WF [] := by
  simp [MessageMap.WF, MessageMap.keys]

theorem find_recordAll_last_message (msgs : List mavlink_message_t) (k : Nat) :
    ((recordAll msgs []).find k).map (·.last_message)
      = msgs.find? (fun x => decide (x.msgid = k)) := by
  have := recordAll_last_message msgs [] k
  simpa [MessageMap.find] using this

theorem mem_keys_recordAll (msgs : List mavlink_message_t) (k : Nat) :
    k ∈ (recordAll msgs []).keys ↔ ∃ m ∈ msgs, m.msgid = k := by
  rw [← find_isSome_iff_mem_keys]
  have h := find_recordAll_last_message msgs k
  have h2 : ((recordAll msgs []).find k).isSome
      = (msgs.find? (fun x => decide (x.msgid = k))).isSome := by
    rw [← h]
    cases (recordAll msgs []).find k <;> rfl
  rw [h2, List.find?_isSome]
  simp

theorem last_message_msgid_recordAll (msgs : List mavlink_message_t) (k : Nat)
    (e : MessageInfo) (h : (recordAll msgs []).find k = some e) :
    e.last_message.msgid = k := by
  have h1 := find_recordAll_last_message msgs k
  rw [h] at h1
  have := List.find?_some h1.symm
  simpa using this

theorem occurrences_snoc (l : List mavlink_message_t) (x : mavlink_message_t) (k : Nat) :
    occurrences (l ++ [x]) k = occurrences l k + if x.msgid = k then 1 else 0 := by
  simp [occurrences, List.countP_append, List.countP_cons]

theorem occurrences_le_length (l : List mavlink_message_t) (k : Nat) :
    occurrences l k ≤ l.length := List.countP_le_length _

theorem occurrences_pos_iff (l : List mavlink_message_t) (k : Nat) :
    0 < occurrences l k ↔ ∃ m ∈ l, m.msgid = k := by
  simp [occurrences, List.countP_pos_iff]

/-- Below the range of `int`, the count stored under a msgid is the number of messages
of that msgid recorded. -/
theorem count_recordAll (msgs : List mavlink_message_t) (hlen : msgs.length < 2147483648)
    (k : Nat) (e : MessageInfo) (h : (recordAll msgs []).find k = some e) :
    e.count = (occurrences msgs k : Int) := by
  induction msgs using List.reverseRecOn generalizing k e with
  | nil => simp [recordAll, MessageMap.find] at h
  | append_singleton init x ih =>
    have hlen' : init.length < 2147483647 := by
      simp only [List.length_append, List.length_singleton] at hlen
      omega
    rw [recordAll_snoc] at h
    rw [occurrences_snoc]
    by_cases hk : k = x.msgid
    · subst hk
      cases h0 : (recordAll init []).find x.msgid with
      | none =>
        simp only [mavlink_message_receive_callback, h0, find_assign_self,
          Option.some.injEq] at h
        have hnot : ¬ 0 < occurrences init x.msgid := by
          rw [occurrences_pos_iff, ← mem_keys_recordAll]
          exact (find_eq_none_iff _ _).mp h0
        have hz : occurrences init x.msgid = 0 := by omega
        rw [← h, hz]
        simp
      | some e0 =>
        simp only [mavlink_message_receive_callback, h0,
          find_incrementCount_self _ _ _ h0, Option.some.injEq] at h
        have hc := ih (by omega) _ _ h0
        have hle := occurrences_le_length init x.msgid
        have hw : wrapInt32 (e0.count + 1) = e0.count + 1 :=
          wrapInt32_eq_self _ (by omega) (by omega)
        rw [← h]
        simp only [hw]
        simp [hc]
    · have hk' : ¬ x.msgid = k := fun h => hk h.symm
      have hfind : (recordAll init []).find k = some e := by
        cases h0 : (recordAll init []).find x.msgid with
        | none =>
          simpa [mavlink_message_receive_callback, h0, find_assign_ne _ _ _ _ hk] using h
        | some e0 =>
          simpa [mavlink_message_receive_callback, h0, find_incrementCount_ne _ _ _ hk]
            using h
      rw [ih (by omega) _ _ hfind]
      simp [hk']

theorem runSteps_callbacks (msgs : List mavlink_message_t) :
    runSteps (msgs.map fun m => Step.callback (some m)) = recordAll msgs [] := by
  simp only [runSteps, recordAll, List.foldl_map]
  rfl

/-- C16 (amended): in every state reached from the empty map by callback and drain steps,
a msgid is a key exactly when a message of that msgid was recorded since the last drain,
and when fewer than 2^31 messages were recorded since the last drain every entry's count
is the number of those messages, hence at least 1. -/
theorem reachable_keys_and_counts (steps : List Step) :
    (∀ k, k ∈ (runSteps steps).keys ↔ ∃ m ∈ recordedSinceDrain steps, m.msgid = k) ∧
      ((recordedSinceDrain steps).length < 2147483648 →
        ∀ k e, (runSteps steps).find k = some e →
          e.count = (occurrences (recordedSinceDrain steps) k : Int) ∧ 1 ≤ e.count) := by
  rw [runSteps_eq_recordAll]
  refine ⟨fun k => mem_keys_recordAll _ k, ?_⟩
  intro hlen k e h
  have hc := count_recordAll _ hlen k e h
  refine ⟨hc, ?_⟩
  have hmem : k ∈ (recordAll (recordedSinceDrain steps) []).keys := by
    rw [← find_isSome_iff_mem_keys, h]
    rfl
  have hpos := (occurrences_pos_iff _ k).mpr ((mem_keys_recordAll _ k).mp hmem)
  rw [hc]
  exact_mod_cast hpos

theorem reachable_keys_and_counts_witness :
    (recordedSinceDrain sampleHistory).length < 2147483648 ∧
      (runSteps sampleHistory).find 0 = some { count := 2, last_message := msgA } ∧
      ((2 : Int) = (occurrences (recordedSinceDrain sampleHistory) 0 : Int) ∧ (1 : Int) ≤ 2) :=
  ⟨by decide, by decide,
    (reachable_keys_and_counts sampleHistory).2 (by decide) 0
      { count := 2, last_message := msgA } (by decide)⟩

/-- C16 as stated fails: after 2^31 callbacks with messages of one msgid and no drain in
between, the entry's count is -2^31, not at least 1. -/
theorem reachable_count_below_one :
    (runSteps ((List.replicate 2147483648 msgA).map fun m => Step.callback (some m))).find 0
        = some { count := -2147483648, last_message := msgA } ∧
      ¬ (1 : Int) ≤ -2147483648 := by
  have h : recordAll (List.replicate 2147483648 msgA) []
      = [(msgA.msgid, ⟨wrapInt32 (1 + ((2147483647 : Nat) : Int)), msgA⟩)] :=
    recordAll_replicate_succ msgA 2147483647
  have hw : wrapInt32 (1 + ((2147483647 : Nat) : Int)) = -2147483648 := by decide
  rw [hw] at h
  rw [runSteps_callbacks, h]
  exact ⟨by decide, by decide⟩

/-- C18: in every state reached from the empty map by callback and drain steps, the entry
stored under key k holds a message of msgid k, so the schema entry used to decode it is
the one of k. -/
theorem reachable_last_message_msgid (steps : List Step) (k : Nat) (e : MessageInfo)
    (h : (runSteps steps).find k = some e) :
    e.last_message.msgid = k ∧
      ∀ env : Env, mavlink_get_message_info env e.last_message
        = env.mavlink_get_message_info_by_id k := by
  rw [runSteps_eq_recordAll] at h
  have hk := last_message_msgid_recordAll _ k e h
  exact ⟨hk, fun env => by rw [mavlink_get_message_info, hk]⟩

theorem reachable_last_message_msgid_witness :
    (runSteps sampleHistory).find 0 = some { count := 2, last_message := msgA } ∧
      msgA.msgid = 0 ∧
      mavlink_get_message_info sampleEnv msgA = sampleEnv.mavlink_get_message_info_by_id 0 :=
  ⟨by decide,
    (reachable_last_message_msgid sampleHistory 0 { count := 2, last_message := msgA }
      (by decide)).1,
    (reachable_last_message_msgid sampleHistory 0 { count := 2, last_message := msgA }
      (by decide)).2 sampleEnv⟩

/-! ## The polling loop -/

theorem durationMs_gt_iff (ticksPerMs start now : Int) (hpos : 0 < ticksPerMs) :
    1000 < durationMs ticksPerMs start now ↔ 1001 * ticksPerMs ≤ now - start := by
  unfold durationMs
  rcases le_or_lt 0 (now - start) with h | h
  · rw [Int.tdiv_eq_ediv h hpos.le]
    have := Int.le_ediv_iff_mul_le (a := 1001) (b := now - start) hpos
    omega
  · have h1 : (now - start).tdiv ticksPerMs = -((-(now - start)).tdiv ticksPerMs) := by
      rw [Int.neg_tdiv, neg_neg]
    have h2 : 0 ≤ (-(now - start)).tdiv ticksPerMs := Int.tdiv_nonneg (by omega) hpos.le
    have h3 : 0 < 1001 * ticksPerMs := by positivity
    constructor
    · intro h4
      omega
    · intro h4
      omega

theorem reportCycle_text_ne_empty (env : Env) (duration_ms : Int) (messages : MessageMap) :
    (reportCycle env duration_ms messages).1 ≠ some "" := by
  unfold reportCycle
  cases printRows env duration_ms (messagesSorted env messages) with
  | none => simp
  | some rows =>
    simp only [Option.map_some', ne_eq, Option.some.injEq]
    intro h
    have := congrArg String.length h
    rw [String.length_append] at this
    have h5 : ("\x1b[2J\n" : String).length = 5 := by decide
    rw [h5] at this
    simp at this

/-- C17 (amended): one poll performs a reporting cycle exactly when the elapsed time in
whole milliseconds exceeds 1000, that is when at least 1001 ms have elapsed; a cycle sets
the reference time to `now` and leaves the map empty, and without a cycle the reference
time and the map are unchanged and nothing is written. -/
theorem poll_cycle_iff_over_1000 (env : Env) (ticksPerMs now : Int) (s : RunState)
    (hpos : 0 < ticksPerMs) :
    ((poll env ticksPerMs now s).2 ≠ some "" ↔ 1001 * ticksPerMs ≤ now - s.start) ∧
      (1001 * ticksPerMs ≤ now - s.start →
        (poll env ticksPerMs now s).1.start = now ∧
          (poll env ticksPerMs now s).1.messages = [] ∧
          (poll env ticksPerMs now s).2
            = (reportCycle env (durationMs ticksPerMs s.start now) s.messages).1) ∧
      (now - s.start < 1001 * ticksPerMs →
        (poll env ticksPerMs now s).1.start = s.start ∧
          (poll env ticksPerMs now s).1.messages = s.messages ∧
          (poll env ticksPerMs now s).2 = some "") := by
  have hiff := durationMs_gt_iff ticksPerMs s.start now hpos
  by_cases h : 1001 * ticksPerMs ≤ now - s.start
  · have hd : durationMs ticksPerMs s.start now > 1000 := hiff.mpr h
    have hp : poll env ticksPerMs now s
        = ({ start := now,
             messages := (reportCycle env (durationMs ticksPerMs s.start now) s.messages).2 },
            (reportCycle env (durationMs ticksPerMs s.start now) s.messages).1) := if_pos hd
    rw [hp]
    refine ⟨⟨fun _ => h, fun _ => reportCycle_text_ne_empty _ _ _⟩, fun _ => ⟨rfl, rfl, rfl⟩,
      fun h' => absurd h (not_le.mpr h')⟩
  · have hd : ¬ durationMs ticksPerMs s.start now > 1000 := fun hd => h (hiff.mp hd)
    have hp : poll env ticksPerMs now s = (s, some "") := if_neg hd
    rw [hp]
    exact ⟨⟨fun h' => absurd rfl h', fun h' => absurd h' h⟩, fun h' => absurd h' h,
      fun _ => ⟨rfl, rfl, rfl⟩⟩

theorem poll_cycle_iff_over_1000_witness :
    (0 : Int) < 1000000 ∧ (1000999999 : Int) - sampleRunState.start < 1001 * 1000000 ∧
      (poll sampleEnv 1000000 1000999999 sampleRunState).1.start = sampleRunState.start ∧
      (poll sampleEnv 1000000 1000999999 sampleRunState).1.messages
        = sampleRunState.messages ∧
      (poll sampleEnv 1000000 1000999999 sampleRunState).2 = some "" ∧
      (1001 * 1000000 : Int) ≤ 1001000000 - sampleRunState.start ∧
      (poll sampleEnv 1000000 1001000000 sampleRunState).1.start = 1001000000 ∧
      (poll sampleEnv 1000000 1001000000 sampleRunState).1.messages = [] :=
  ⟨by decide, by decide,
    ((poll_cycle_iff_over_1000 sampleEnv 1000000 1000999999 sampleRunState (by decide)).2.2
      (by decide)).1,
    ((poll_cycle_iff_over_1000 sampleEnv 1000000 1000999999 sampleRunState (by decide)).2.2
      (by decide)).2.1,
    ((poll_cycle_iff_over_1000 sampleEnv 1000000 1000999999 sampleRunState (by decide)).2.2
      (by decide)).2.2,
    by decide,
    ((poll_cycle_iff_over_1000 sampleEnv 1000000 1001000000 sampleRunState (by decide)).2.1
      (by decide)).1,
    ((poll_cycle_iff_over_1000 sampleEnv 1000000 1001000000 sampleRunState (by decide)).2.1
      (by decide)).2.1⟩

/-- C17 as stated fails: with a nanosecond clock and exactly 1000 ms elapsed, the poll
performs no cycle: the reference time and the map are unchanged and nothing is written. -/
theorem no_cycle_at_exactly_1000_ms :
    (1000000000 : Int) - sampleRunState.start = 1000 * 1000000 ∧
      durationMs 1000000 sampleRunState.start 1000000000 = 1000 ∧
      (poll sampleEnv 1000000 1000000000 sampleRunState).1.start = sampleRunState.start ∧
      (poll sampleEnv 1000000 1000000000 sampleRunState).1.messages
        = sampleRunState.messages ∧
      (poll sampleEnv 1000000 1000000000 sampleRunState).2 = some "" := by
  decide

/-! ## End to end -/

theorem printRows_singleton (env : Env) (duration_ms : Int) (e : MessageInfo) (row : String)
    (h : printRows env duration_ms [e] = some row) :
    ∃ r text, rate e.count duration_ms = some r ∧
      printMessage env e.last_message = some text ∧ row = toString r ++ " " ++ text := by
  simp only [printRows] at h
  cases hr : rate e.count duration_ms with
  | none => simp [hr] at h
  | some r =>
    cases ht : printMessage env e.last_message with
    | none => simp [hr, ht] at h
    | some text =>
      simp only [hr, ht, Option.some.injEq, String.append_empty] at h
      exact ⟨r, text, rfl, rfl, h.symm⟩

/-- The text of the row loop is the concatenation of the rows of the entries, in order. -/
theorem printRows_eq_concatAll (env : Env) (duration_ms : Int) (l : List MessageInfo)
    (rows : List String)
    (h : l.map (fun e => printRows env duration_ms [e]) = rows.map some) :
    printRows env duration_ms l = some (concatAll rows) := by
  induction l generalizing rows with
  | nil =>
    cases rows with
    | nil => rfl
    | cons _ _ => simp at h
  | cons e rest ih =>
    cases rows with
    | nil => simp at h
    | cons row rows' =>
      simp only [List.map_cons, List.cons.injEq] at h
      obtain ⟨r, text, hr, ht, hrow⟩ := printRows_singleton env duration_ms e row h.1
      simp only [printRows, hr, ht, ih rows' h.2, concatAll, hrow]

theorem keys_perm_dedup (msgs : List mavlink_message_t) :
    (recordAll msgs []).keys.Perm (msgs.map (·.msgid)).dedup := by
  have hwf : (recordAll msgs []).WF := wf_recordAll msgs [] wf_nil
  have hnd : (recordAll msgs []).keys.Nodup := by
    have hwf' : (recordAll msgs []).keys.Pairwise (· < ·) := hwf
    exact hwf'.imp (fun {a b} hab => ne_of_lt hab)
  refine (List.perm_ext_iff_of_nodup hnd (List.nodup_dedup _)).mpr fun k => ?_
  rw [mem_keys_recordAll, List.mem_dedup, List.mem_map]

theorem entry_of_recordAll (msgs : List mavlink_message_t) (e : MessageInfo)
    (he : e ∈ (recordAll msgs []).map Prod.snd) :
    (recordAll msgs []).find e.last_message.msgid = some e := by
  obtain ⟨⟨k, e'⟩, hmem, rfl⟩ := List.mem_map.mp he
  have hfind := find_of_mem _ (wf_recordAll msgs [] wf_nil) k e' hmem
  rw [last_message_msgid_recordAll msgs k e' hfind]
  exact hfind

theorem map_msgid_eq_keys (msgs : List mavlink_message_t) :
    ((recordAll msgs []).map Prod.snd).map (·.last_message.msgid)
      = (recordAll msgs []).keys := by
  rw [List.map_map, MessageMap.keys]
  refine List.map_congr_left fun p hp => ?_
  exact last_message_msgid_recordAll msgs p.1 p.2
    (find_of_mem _ (wf_recordAll msgs [] wf_nil) p.1 p.2 hp)

/-- C15 (amended): for every sequence of fewer than 2^31 non-null messages recorded from
the empty map and every sort with the guarantee of `std::sort`, one reporting cycle writes
the clear-screen sequence and one row per distinct msgid of the sequence (none for the
empty sequence), the rows are in ascending order of the number of occurrences of their
msgid, and the map is empty afterwards. -/
theorem end_to_end_below_int_range (env : Env) (hsort : SortsByCount env.sort)
    (msgs : List mavlink_message_t) (hlen : msgs.length < 2147483648) (duration_ms : Int)
    (rows : List String)
    (hrows : (messagesSorted env (recordAll msgs [])).map
        (fun e => printRows env duration_ms [e]) = rows.map some) :
    (reportCycle env duration_ms (recordAll msgs [])).1
        = some ("\x1b[2J\n" ++ concatAll rows) ∧
      rows.length = (msgs.map (·.msgid)).dedup.length ∧
      ((messagesSorted env (recordAll msgs [])).map (·.last_message.msgid)).Perm
        (msgs.map (·.msgid)).dedup ∧
      (∀ e ∈ messagesSorted env (recordAll msgs []),
        e.count = (occurrences msgs e.last_message.msgid : Int)) ∧
      ((messagesSorted env (recordAll msgs [])).map
        (fun e => occurrences msgs e.last_message.msgid)).Sorted (· ≤ ·) ∧
      (reportCycle env duration_ms (recordAll msgs [])).2 = [] := by
  have hperm : (messagesSorted env (recordAll msgs [])).Perm
      ((recordAll msgs []).map Prod.snd) := by
    have := (hsort (drain (recordAll msgs [])).1).1
    rw [drain_fst] at this
    simpa only [messagesSorted, drain_fst] using this
  have hcount : ∀ e ∈ messagesSorted env (recordAll msgs []),
      e.count = (occurrences msgs e.last_message.msgid : Int) := fun e he =>
    count_recordAll msgs hlen _ e (entry_of_recordAll msgs e (hperm.mem_iff.mp he))
  have hids : ((messagesSorted env (recordAll msgs [])).map (·.last_message.msgid)).Perm
      (msgs.map (·.msgid)).dedup := by
    have h1 := hperm.map (·.last_message.msgid)
    rw [map_msgid_eq_keys] at h1
    exact h1.trans (keys_perm_dedup msgs)
  refine ⟨?_, ?_, hids, hcount, ?_, rfl⟩
  · simp only [reportCycle, printRows_eq_concatAll env duration_ms _ rows hrows,
      Option.map_some']
  · have h1 := congrArg List.length hrows
    simp only [List.length_map] at h1
    rw [← h1, ← hids.length_eq, List.length_map]
  · have hs := messagesSorted_counts_sorted env hsort (recordAll msgs [])
    simp only [List.Sorted, List.pairwise_map] at hs ⊢
    refine hs.imp_of_mem fun {a b} ha hb hab => ?_
    rw [hcount a ha, hcount b hb] at hab
    exact_mod_cast hab

theorem printRows_single (env : Env) (duration_ms : Int) (e : MessageInfo) (r : Int)
    (text : String) (hr : rate e.count duration_ms = some r)
    (ht : printMessage env e.last_message = some text) :
    printRows env duration_ms [e] = some (toString r ++ " " ++ text) := by
  simp only [printRows, hr, ht, String.append_empty]

theorem rate_1_1001 : rate 1 1001 = some 1 := by
  simpa using rate_nat 1 1001 (by norm_num) (by norm_num)

theorem rate_3_1001 : rate 3 1001 = some 3 := by
  simpa using rate_nat 3 1001 (by norm_num) (by norm_num)

theorem rows_of_threeAOneB :
    (messagesSorted sampleEnv (recordAll threeAOneB [])).map
        (fun e => printRows sampleEnv 1001 [e]) = rowsOfThreeAOneB.map some := by
  have h : messagesSorted sampleEnv (recordAll threeAOneB [])
      = [{ count := 1, last_message := msgB }, { count := 3, last_message := msgA }] := by
    decide
  rw [h]
  simp only [List.map_cons, List.map_nil, rowsOfThreeAOneB]
  rw [printRows_single sampleEnv 1001 { count := 1, last_message := msgB } 1 _ rate_1_1001
      (by decide : printMessage sampleEnv msgB = some "MSGID=30 (sysid=1, compid=1) len=4\n"),
    printRows_single sampleEnv 1001 { count := 3, last_message := msgA } 3 _ rate_3_1001
      (by decide : printMessage sampleEnv msgA = some
        ("\x1b[32mHEARTBEAT\x1b[0m (sysid=1, compid=1, custom_mode=4, type=2, autopilot=12, "
          ++ "base_mode=81, system_status=3, mavlink_version=3)\n"))]
  decide

theorem end_to_end_below_int_range_witness :
    SortsByCount sampleEnv.sort ∧ threeAOneB.length < 2147483648 ∧
      (reportCycle sampleEnv 1001 (recordAll threeAOneB [])).1
        = some ("\x1b[2J\n" ++ concatAll rowsOfThreeAOneB) ∧
      rowsOfThreeAOneB.length = 2 ∧
      (reportCycle sampleEnv 1001 (recordAll threeAOneB [])).2 = [] :=
  ⟨stableSort_sortsByCount, by decide,
    (end_to_end_below_int_range sampleEnv stableSort_sortsByCount threeAOneB (by decide) 1001
      rowsOfThreeAOneB rows_of_threeAOneB).1,
    by decide,
    (end_to_end_below_int_range sampleEnv stableSort_sortsByCount threeAOneB (by decide) 1001
      rowsOfThreeAOneB rows_of_threeAOneB).2.2.2.2.2⟩

/-- C15 as stated fails: after 2^31 messages of msgid 0 and one of msgid 30 the counter
of msgid 0 has wrapped to -2^31, and the entry of msgid 0 is placed before the entry of
msgid 30 although msgid 0 occurred more often. -/
theorem rows_not_ascending_after_overflow :
    messagesSorted sampleEnv (recordAll (List.replicate 2147483648 msgA ++ [msgB]) [])
        = [{ count := -2147483648, last_message := msgA },
            { count := 1, last_message := msgB }] ∧
      occurrences (List.replicate 2147483648 msgA ++ [msgB]) msgA.msgid = 2147483648 ∧
      occurrences (List.replicate 2147483648 msgA ++ [msgB]) msgB.msgid = 1 := by
  have h : recordAll (List.replicate 2147483648 msgA) []
      = [(msgA.msgid, ⟨wrapInt32 (1 + ((2147483647 : Nat) : Int)), msgA⟩)] :=
    recordAll_replicate_succ msgA 2147483647
  have hw : wrapInt32 (1 + ((2147483647 : Nat) : Int)) = -2147483648 := by decide
  rw [hw] at h
  refine ⟨?_, ?_, ?_⟩
  · rw [recordAll_snoc, h]
    decide
  · rw [occurrences, List.countP_append, List.countP_replicate]
    decide
  · rw [occurrences, List.countP_append, List.countP_replicate]
    decide

/-! ## Claims about field decoding and layout -/

/-- C11 at a failing input: the `name` field of `fullNameMsg` is a `char[10]` at offset 8
without a zero byte among its ten bytes. The code prints up to the first zero byte of the
buffer, twelve characters, the last two from the bytes 18 and 19 behind the array; the
ten bytes of the array alone read `ABCDEFGHIJ`. -/
theorem char_array_rendered_past_array_length :
    nameField.type = MAVLINK_TYPE_CHAR ∧ nameField.array_length = 10 ∧
      ((fullNameMsg.payload.drop nameField.structure_offset).take
        nameField.array_length).all (fun b => b % 256 != 0) = true ∧
      bytesToString ((fullNameMsg.payload.drop nameField.structure_offset).take
        nameField.array_length) = "ABCDEFGHIJ" ∧
      printFieldValue decoderEnv fullNameMsg nameField = some "ABCDEFGHIJKL" ∧
      printMessage decoderEnv fullNameMsg
        = some ("\x1b[32mNAMED_VALUE_INT\x1b[0m (sysid=1, compid=1, time_boot_ms=1000, "
          ++ "value=-2, name=ABCDEFGHIJKL)\n") := by
  decide

theorem leValue_take (l : List Nat) (w : Nat) :
    leValue (l.take w) = ((List.range w).map fun i => (l.getD i 0 % 256) * 256 ^ i).sum := by
  induction w generalizing l with
  | zero => simp [leValue]
  | succ w ih =>
    cases l with
    | nil => simp [leValue]
    | cons b rest =>
      rw [List.take_succ_cons, leValue, ih rest, List.range_succ_eq_map, List.map_cons,
        List.sum_cons, List.map_map, ← List.sum_map_mul_left]
      simp only [List.getD_cons_zero, pow_zero, mul_one, Function.comp_def,
        List.getD_cons_succ, pow_succ]
      congr 2
      refine List.map_congr_left fun i _ => ?_
      ring

theorem leValue_drop_take (payload : List Nat) (addr width : Nat) :
    leValue ((payload.drop addr).take width) = unsignedAt payload addr width := by
  rw [leValue_take, unsignedAt]
  congr 1
  refine List.map_congr_left fun i _ => ?_
  simp [List.getD_eq_getElem?_getD, List.getElem?_drop]

theorem readLE_eq_unsignedAt (payload : List Nat) (addr width : Nat)
    (h : addr + width ≤ payload.length) :
    readLE payload addr width = some (unsignedAt payload addr width) := by
  rw [readLE, if_pos h, leValue_drop_take]

/-- C13: for every integer-typed field and element index j whose bytes lie in the payload
buffer, `printField` renders the decimal value of the 1, 2, 4 or 8 bytes at
`structure_offset + j * width`, least significant byte first, unsigned for the unsigned
types and in two's complement for the signed ones. -/
theorem integer_field_rendering (env : Env) (mav_message : mavlink_message_t)
    (field : mavlink_field_info_t) (j : Nat)
    (h : field.structure_offset + j * typeWidth field.type + typeWidth field.type
      ≤ mav_message.payload.length) :
    (typeWidth MAVLINK_TYPE_UINT8_T = 1 ∧ typeWidth MAVLINK_TYPE_INT8_T = 1 ∧
      typeWidth MAVLINK_TYPE_UINT16_T = 2 ∧ typeWidth MAVLINK_TYPE_INT16_T = 2 ∧
      typeWidth MAVLINK_TYPE_UINT32_T = 4 ∧ typeWidth MAVLINK_TYPE_INT32_T = 4 ∧
      typeWidth MAVLINK_TYPE_UINT64_T = 8 ∧ typeWidth MAVLINK_TYPE_INT64_T = 8) ∧
      (field.type = MAVLINK_TYPE_UINT8_T ∨ field.type = MAVLINK_TYPE_UINT16_T ∨
        field.type = MAVLINK_TYPE_UINT32_T ∨ field.type = MAVLINK_TYPE_UINT64_T →
        printField env mav_message field j = some (toString (unsignedAt mav_message.payload
          (field.structure_offset + j * typeWidth field.type) (typeWidth field.type)))) ∧
      (field.type = MAVLINK_TYPE_INT8_T ∨ field.type = MAVLINK_TYPE_INT16_T ∨
        field.type = MAVLINK_TYPE_INT32_T ∨ field.type = MAVLINK_TYPE_INT64_T →
        printField env mav_message field j = some (toString (signedAt mav_message.payload
          (field.structure_offset + j * typeWidth field.type) (typeWidth field.type)))) := by
  have hr := readLE_eq_unsignedAt mav_message.payload _ _ h
  refine ⟨⟨rfl, rfl, rfl, rfl, rfl, rfl, rfl, rfl⟩, ?_, ?_⟩
  · intro ht
    rw [printField, hr]
    rcases ht with ht | ht | ht | ht <;> simp [ht]
  · intro ht
    rw [printField, hr]
    rcases ht with ht | ht | ht | ht <;> simp [ht, toSigned, signedAt, typeWidth]

theorem integer_field_rendering_witness :
    (flagField.structure_offset + 0 * typeWidth flagField.type + typeWidth flagField.type
        ≤ scalarAndArrayMsg.payload.length) ∧
      printField decoderEnv scalarAndArrayMsg flagField 0 = some "200" ∧
      (samplesField.structure_offset + 2 * typeWidth samplesField.type
        + typeWidth samplesField.type ≤ scalarAndArrayMsg.payload.length) ∧
      printField decoderEnv scalarAndArrayMsg samplesField 2 = some "-32768" ∧
      printMessage decoderEnv scalarAndArrayMsg
        = some ("\x1b[32mEXAMPLE\x1b[0m (sysid=1, compid=1, flag=200, "
          ++ "samples=(1, -1, -32768, 4660))\n") :=
  ⟨by decide,
    ((integer_field_rendering decoderEnv scalarAndArrayMsg flagField 0 (by decide)).2.1
      (Or.inl rfl)).trans (by decide),
    by decide,
    ((integer_field_rendering decoderEnv scalarAndArrayMsg samplesField 2 (by decide)).2.2
      (Or.inr (Or.inl rfl))).trans (by decide),
    by decide⟩

theorem printArrayElements_range' (env : Env) (mav_message : mavlink_message_t)
    (field : mavlink_field_info_t) :
    ∀ (k s : Nat) (elements : List String), s + k = field.array_length →
      (List.range' s k).map (fun j => printField env mav_message field j)
        = elements.map some →
      printArrayElements env mav_message field (List.range' s k)
        = some (separated ", " elements) := by
  intro k
  induction k with
  | zero =>
    intro s elements _ h
    cases elements with
    | nil => rfl
    | cons e es => simp at h
  | succ k ih =>
    intro s elements hs h
    cases elements with
    | nil => simp [List.range'_succ] at h
    | cons e es =>
      rw [List.range'_succ, List.map_cons, List.map_cons, List.cons.injEq] at h
      have htail := ih (s + 1) es (by omega) h.2
      rw [List.range'_succ, printArrayElements, h.1, htail]
      cases es with
      | nil =>
        have hk : k = 0 := by
          cases k with
          | zero => rfl
          | succ k => simp [List.range'_succ] at h
        have hlt : ¬ s < field.array_length - 1 := by omega
        simp [hlt, separated]
      | cons e' es' =>
        have hk : 0 < k := by
          cases k with
          | zero => simp at h
          | succ k => omega
        have hlt : s < field.array_length - 1 := by omega
        simp [hlt, separated, String.append_assoc]

/-- C14: a field with `array_length > 0` whose type is not `char` is rendered as `"("`,
the renderings of the elements 0 .. array_length - 1 in index order separated by `", "`,
and `")"`; a field with `array_length = 0` is rendered as the one element 0, without
parentheses. -/
theorem array_and_scalar_layout (env : Env) (mav_message : mavlink_message_t)
    (field : mavlink_field_info_t) :
    (0 < field.array_length → field.type ≠ MAVLINK_TYPE_CHAR →
      ∀ elements : List String,
        (List.range field.array_length).map (fun j => printField env mav_message field j)
          = elements.map some →
        elements.length = field.array_length ∧
          printFieldValue env mav_message field
            = some ("(" ++ separated ", " elements ++ ")")) ∧
      (field.array_length = 0 →
        printFieldValue env mav_message field = printField env mav_message field 0) := by
  constructor
  · intro hpos hchar elements h
    have hlen : elements.length = field.array_length := by
      have := congrArg List.length h
      simpa using this.symm
    refine ⟨hlen, ?_⟩
    rw [List.range_eq_range'] at h
    have := printArrayElements_range' env mav_message field field.array_length 0 elements
      (by omega) h
    rw [printFieldValue, if_pos hpos, if_neg hchar, List.range_eq_range', this]
    simp [String.append_assoc]
  · intro h0
    rw [printFieldValue, if_neg (by omega)]

theorem array_and_scalar_layout_witness :
    (0 < samplesField.array_length ∧ samplesField.type ≠ MAVLINK_TYPE_CHAR) ∧
      printFieldValue decoderEnv scalarAndArrayMsg samplesField
        = some "(1, -1, -32768, 4660)" ∧
      flagField.array_length = 0 ∧
      printFieldValue decoderEnv scalarAndArrayMsg flagField = some "200" :=
  ⟨by decide,
    (((array_and_scalar_layout decoderEnv scalarAndArrayMsg samplesField).1 (by decide)
      (by decide) ["1", "-1", "-32768", "4660"] (by decide)).2).trans (by decide),
    by decide,
    ((array_and_scalar_layout decoderEnv scalarAndArrayMsg flagField).2 (by decide)).trans
      (by decide)⟩

/-! ## The guard on the divisor of the rate -/

theorem roundHalfEven_le_add_half (x : ℚ) : (roundHalfEven x : ℚ) ≤ x + 1 / 2 := by
  have hfl : (⌊x⌋ : ℚ) ≤ x := Int.floor_le x
  unfold roundHalfEven
  split_ifs with h1 h2 h3
  · linarith
  · push_cast
    linarith
  · linarith
  · push_cast
    have : x - ⌊x⌋ = 1 / 2 := le_antisymm (not_lt.mp h2) (not_lt.mp h1)
    linarith

/-- Rounding to binary32 raises a value by at most the fraction `2 ^ (-24)` of it. -/
theorem roundF32_le_rel (x : ℚ) (hx : 0 ≤ x) : roundF32 x ≤ x * (16777217 / 16777216) := by
  rcases hx.eq_or_lt with h | h
  · rw [← h, roundF32_zero]
    norm_num
  · obtain ⟨h1, h2⟩ := binade_bounds x h
    rw [roundF32_of_binade x _ h1 h2]
    obtain ⟨b1, _⟩ := scaled_bounds x _ h1 h2
    have hr := roundHalfEven_le_add_half (x / 2 ^ (Int.log 2 x - 23))
    generalize Int.log 2 x - 23 = e at b1 hr ⊢
    have hp : (0 : ℚ) < 2 ^ e := by positivity
    have hy : (roundHalfEven (x / 2 ^ e) : ℚ) ≤ x / 2 ^ e * (16777217 / 16777216) := by
      norm_num at b1
      linarith
    calc (roundHalfEven (x / 2 ^ e) : ℚ) * 2 ^ e
        ≤ x / 2 ^ e * (16777217 / 16777216) * 2 ^ e := mul_le_mul_of_nonneg_right hy hp.le
      _ = x * (16777217 / 16777216) := by
        field_simp
        ring

/-- For a count between 1 and `INT_MAX` and a divisor above 1000 the rate computed in
`float` is defined, not negative and at most the count. -/
theorem rate_le_count (count duration_ms : Int) (hc1 : 1 ≤ count) (hc2 : count ≤ INT_MAX)
    (hd : 1000 < duration_ms) :
    ∃ r, rate count duration_ms = some r ∧ 0 ≤ r ∧ r ≤ count := by
  have hcq : (1 : ℚ) ≤ (count : ℚ) := by exact_mod_cast hc1
  have hdq : (1001 : ℚ) ≤ (duration_ms : ℚ) := by
    have : (1001 : Int) ≤ duration_ms := by omega
    exact_mod_cast this
  have hC0 : 0 ≤ roundF32 (count : ℚ) := roundF32_nonneg _ (by linarith)
  have hC := roundF32_le_rel (count : ℚ) (by linarith)
  have hP0 : 0 ≤ roundF32 (roundF32 (count : ℚ) * 1000) := roundF32_nonneg _ (by positivity)
  have hP := roundF32_le_rel (roundF32 (count : ℚ) * 1000) (by positivity)
  have hD : (1001 : ℚ) ≤ roundF32 (duration_ms : ℚ) := by
    have h1 := roundF32_mono (x := (1001 : ℚ)) (y := (duration_ms : ℚ)) (by norm_num) hdq
    have h2 := roundF32_natCast 1001 (by norm_num)
    norm_num at h2
    rw [h2] at h1
    exact h1
  generalize hCd : roundF32 (count : ℚ) = C at hC0 hC hP0 hP ⊢
  generalize hPd : roundF32 (C * 1000) = P at hP0 hP ⊢
  generalize hDd : roundF32 (duration_ms : ℚ) = D at hD ⊢
  have hD0 : (0 : ℚ) < D := by linarith
  have hX0 : 0 ≤ P / D := by positivity
  have hX : P / D ≤ P / 1001 := div_le_div_of_nonneg_left hP0 (by norm_num) hD
  have hQ0 : 0 ≤ roundF32 (P / D) := roundF32_nonneg _ hX0
  have hQ := roundF32_le_rel (P / D) hX0
  generalize hQd : roundF32 (P / D) = Q at hQ0 hQ ⊢
  have hS0 : 0 ≤ roundF32 (Q + 1 / 2) := roundF32_nonneg _ (by linarith)
  have hS := roundF32_le_rel (Q + 1 / 2) (by linarith)
  generalize hSd : roundF32 (Q + 1 / 2) = S at hS0 hS ⊢
  have hlt : S < (count : ℚ) + 1 := by
    have e1 : P ≤ (count : ℚ) * (16777217 / 16777216) * 1000 * (16777217 / 16777216) := by
      refine hP.trans ?_
      have := mul_le_mul_of_nonneg_right hC (by norm_num : (0 : ℚ) ≤ 1000 * (16777217 / 16777216))
      linarith
    have e2 : Q ≤ (count : ℚ) * (16777217 / 16777216) * 1000 * (16777217 / 16777216) / 1001
        * (16777217 / 16777216) := by
      refine hQ.trans ?_
      have h1 : P / D ≤ (count : ℚ) * (16777217 / 16777216) * 1000 * (16777217 / 16777216)
          / 1001 := hX.trans (div_le_div_of_nonneg_right e1 (by norm_num))
      exact mul_le_mul_of_nonneg_right h1 (by norm_num)
    have e3 : S ≤ ((count : ℚ) * (16777217 / 16777216) * 1000 * (16777217 / 16777216) / 1001
        * (16777217 / 16777216) + 1 / 2) * (16777217 / 16777216) := by
      refine hS.trans ?_
      exact mul_le_mul_of_nonneg_right (by linarith) (by norm_num)
    linarith
  have hfl0 : 0 ≤ ⌊S⌋ := Int.floor_nonneg.mpr hS0
  have hfl1 : ⌊S⌋ < count + 1 := Int.floor_lt.mpr (by push_cast; exact hlt)
  refine ⟨⌊S⌋, ?_, hfl0, by omega⟩
  have hmax : INT_MAX = 2147483647 := rfl
  subst hSd hQd hDd hPd hCd
  exact rate_of_floor count duration_ms _ (by omega) hS0 rfl (by omega) (by omega)

theorem rateExact_le_count (count duration_ms : Int) (hc : 0 ≤ count) (hd : 1000 < duration_ms) :
    rateExact count duration_ms ≤ count := by
  unfold rateExact
  have : (2000 * count + duration_ms) / (2 * duration_ms) < count + 1 :=
    Int.ediv_lt_of_lt_mul (by omega) (by nlinarith)
  omega

theorem poll_text_of_guard (env : Env) (ticksPerMs now : Int) (s : RunState)
    (h : durationMs ticksPerMs s.start now > 1000) :
    (poll env ticksPerMs now s).2
      = (reportCycle env (durationMs ticksPerMs s.start now) s.messages).1 := by
  have hp : poll env ticksPerMs now s
      = ({ start := now,
           messages := (reportCycle env (durationMs ticksPerMs s.start now) s.messages).2 },
          (reportCycle env (durationMs ticksPerMs s.start now) s.messages).1) := if_pos h
  rw [hp]

/-- C19: in every poll of `run` that performs a reporting cycle, the divisor `duration_ms`
of the rate is above 1000, hence not zero, and for every count from 1 to `INT_MAX` the
rate rendered in that cycle is defined and at most the count; so is the exactly rounded
value `floor (count * 1000 / duration_ms + 1/2)`. -/
theorem rate_divisor_above_1000 (env : Env) (ticksPerMs now : Int) (s : RunState)
    (hcycle : (poll env ticksPerMs now s).2 ≠ some "") :
    1000 < durationMs ticksPerMs s.start now ∧ durationMs ticksPerMs s.start now ≠ 0 ∧
      (poll env ticksPerMs now s).2
        = (reportCycle env (durationMs ticksPerMs s.start now) s.messages).1 ∧
      ∀ count : Int, 1 ≤ count → count ≤ INT_MAX →
        (∃ r, rate count (durationMs ticksPerMs s.start now) = some r ∧ r ≤ count) ∧
          rateExact count (durationMs ticksPerMs s.start now) ≤ count := by
  have hd : durationMs ticksPerMs s.start now > 1000 := by
    by_contra hd
    have hp : poll env ticksPerMs now s = (s, some "") := if_neg hd
    rw [hp] at hcycle
    exact hcycle rfl
  refine ⟨hd, by omega, poll_text_of_guard env ticksPerMs now s hd, ?_⟩
  intro count hc1 hc2
  obtain ⟨r, hr, _, hle⟩ := rate_le_count count _ hc1 hc2 hd
  exact ⟨⟨r, hr, hle⟩, rateExact_le_count count _ (by omega) hd⟩

theorem rate_divisor_above_1000_witness :
    (poll sampleEnv 1000000 1001000000 sampleRunState).2 ≠ some "" ∧
      1000 < durationMs 1000000 sampleRunState.start 1001000000 ∧
      (∃ r, rate 3 (durationMs 1000000 sampleRunState.start 1001000000) = some r ∧ r ≤ 3) ∧
      rateExact 3 (durationMs 1000000 sampleRunState.start 1001000000) ≤ 3 :=
  ⟨fun h => reportCycle_text_ne_empty _ _ _
      ((poll_text_of_guard sampleEnv 1000000 1001000000 sampleRunState (by decide)).symm.trans
        h),
    (rate_divisor_above_1000 sampleEnv 1000000 1001000000 sampleRunState
      (fun h => reportCycle_text_ne_empty _ _ _
        ((poll_text_of_guard sampleEnv 1000000 1001000000 sampleRunState
          (by decide)).symm.trans h))).1,
    ((rate_divisor_above_1000 sampleEnv 1000000 1001000000 sampleRunState
      (fun h => reportCycle_text_ne_empty _ _ _
        ((poll_text_of_guard sampleEnv 1000000 1001000000 sampleRunState
          (by decide)).symm.trans h))).2.2.2 3 (by decide) (by decide)).1,
    ((rate_divisor_above_1000 sampleEnv 1000000 1001000000 sampleRunState
      (fun h => reportCycle_text_ne_empty _ _ _
        ((poll_text_of_guard sampleEnv 1000000 1001000000 sampleRunState
          (by decide)).symm.trans h))).2.2.2 3 (by decide) (by decide)).2⟩

/-! ## The layout of a row -/

theorem printFields_layout (env : Env) (mav_message : mavlink_message_t) (num_fields : Nat) :
    ∀ (fields : List mavlink_field_info_t) (i : Nat) (values : List String),
      i + fields.length = num_fields →
      fields.map (printFieldValue env mav_message) = values.map some →
      printFields env mav_message num_fields i fields
        = some (separated ", " (List.zipWith (fun f v => f.name ++ "=" ++ v) fields values)) := by
  intro fields
  induction fields with
  | nil =>
    intro i values _ h
    cases values with
    | nil => rfl
    | cons v vs => simp at h
  | cons f rest ih =>
    intro i values hi h
    cases values with
    | nil => simp at h
    | cons v vs =>
      rw [List.map_cons, List.map_cons, List.cons.injEq] at h
      have htail := ih (i + 1) vs (by simp only [List.length_cons] at hi; omega) h.2
      rw [printFields, h.1, htail]
      cases rest with
      | nil =>
        have hvs : vs = [] := by
          cases vs with
          | nil => rfl
          | cons v' vs' => simp at h
        have hlt : ¬ i < num_fields - 1 := by
          simp only [List.length_cons, List.length_nil] at hi
          omega
        simp [hvs, hlt, separated]
      | cons f' rest' =>
        cases vs with
        | nil => simp at h
        | cons v' vs' =>
          have hlt : i < num_fields - 1 := by
            simp only [List.length_cons] at hi
            omega
          simp [hlt, separated, String.append_assoc]

/-- C12 (amended): for an entry whose message type is in the schema, the row of a
reporting cycle is the decimal rate, one space, the type name between the escape
sequences `ESC[32m` and `ESC[0m`, then `" (sysid=<sysid>, compid=<compid>, "`, one
`name=value` item per field descriptor in descriptor order separated by `", "`, and
`")"` with a newline, with no other characters; for a count from 1 to `INT_MAX` and a
divisor above 1000 the rate is defined. -/
theorem row_layout_with_colour (env : Env) (duration_ms : Int) (e : MessageInfo)
    (msg_info : mavlink_message_info_t) (values : List String)
    (hinfo : mavlink_get_message_info env e.last_message = some msg_info)
    (hvalues : msg_info.fields.map (printFieldValue env e.last_message) = values.map some) :
    (∀ r, rate e.count duration_ms = some r →
      printRows env duration_ms [e]
        = some (toString r ++ " " ++ GREEN_CONSOLE_TEXT ++ msg_info.name
          ++ NORMAL_CONSOLE_TEXT
          ++ " (sysid=" ++ toString (e.last_message.sysid : Int)
          ++ ", compid=" ++ toString (e.last_message.compid : Int) ++ ", "
          ++ separated ", "
            (List.zipWith (fun f v => f.name ++ "=" ++ v) msg_info.fields values)
          ++ ")\n")) ∧
      (1 ≤ e.count → e.count ≤ INT_MAX → 1000 < duration_ms →
        ∃ r, rate e.count duration_ms = some r) := by
  constructor
  · intro r hr
    have hf := printFields_layout env e.last_message msg_info.num_fields msg_info.fields 0
      values (by simp [mavlink_message_info_t.num_fields]) hvalues
    have ht : printMessage env e.last_message
        = some (GREEN_CONSOLE_TEXT ++ msg_info.name ++ NORMAL_CONSOLE_TEXT
          ++ " (sysid=" ++ toString (e.last_message.sysid : Int)
          ++ ", compid=" ++ toString (e.last_message.compid : Int) ++ ", "
          ++ separated ", "
            (List.zipWith (fun f v => f.name ++ "=" ++ v) msg_info.fields values)
          ++ ")\n") := by
      rw [printMessage, hinfo]
      simp only [hf, Option.map_some']
    rw [printRows_single env duration_ms e r _ hr ht]
    simp only [String.append_assoc]
  · intro hc1 hc2 hd
    obtain ⟨r, hr, _⟩ := rate_le_count e.count duration_ms hc1 hc2 hd
    exact ⟨r, hr⟩

theorem row_layout_with_colour_witness :
    mavlink_get_message_info sampleEnv msgA = some heartbeatInfo ∧
      heartbeatInfo.fields.map (printFieldValue sampleEnv msgA)
        = ["4", "2", "12", "81", "3", "3"].map some ∧
      printRows sampleEnv 1001 [{ count := 1, last_message := msgA }]
        = some ("1 \x1b[32mHEARTBEAT\x1b[0m (sysid=1, compid=1, custom_mode=4, type=2, "
          ++ "autopilot=12, base_mode=81, system_status=3, mavlink_version=3)\n") ∧
      ∃ r, rate 1 1001 = some r :=
  ⟨by decide, by decide,
    ((row_layout_with_colour sampleEnv 1001 { count := 1, last_message := msgA }
      heartbeatInfo ["4", "2", "12", "81", "3", "3"] (by decide)
      (by decide)).1 1 rate_1_1001).trans (by decide),
    (row_layout_with_colour sampleEnv 1001 { count := 1, last_message := msgA }
      heartbeatInfo ["4", "2", "12", "81", "3", "3"] (by decide)
      (by decide)).2 (by decide) (by decide) (by decide)⟩

/-- C12 as stated fails: the row of a `HEARTBEAT` entry carries the escape sequences
`ESC[32m` and `ESC[0m` around the type name, so it is not the text
`"<rate> <type_name> (sysid=..., compid=..., name=value, ...)"` with no other
characters. -/
theorem row_carries_colour_escapes :
    mavlink_get_message_info sampleEnv msgA = some heartbeatInfo ∧
      printRows sampleEnv 1001 [{ count := 1, last_message := msgA }]
        = some ("1 \x1b[32mHEARTBEAT\x1b[0m (sysid=1, compid=1, custom_mode=4, type=2, "
          ++ "autopilot=12, base_mode=81, system_status=3, mavlink_version=3)\n") ∧
      printRows sampleEnv 1001 [{ count := 1, last_message := msgA }]
        ≠ some ("1 HEARTBEAT (sysid=1, compid=1, custom_mode=4, type=2, "
          ++ "autopilot=12, base_mode=81, system_status=3, mavlink_version=3)\n") := by
  have h : printRows sampleEnv 1001 [{ count := 1, last_message := msgA }]
      = some ("1 \x1b[32mHEARTBEAT\x1b[0m (sysid=1, compid=1, custom_mode=4, type=2, "
        ++ "autopilot=12, base_mode=81, system_status=3, mavlink_version=3)\n") :=
    (printRows_single sampleEnv 1001 { count := 1, last_message := msgA } 1 _ rate_1_1001
      (by decide : printMessage sampleEnv msgA = some
        ("\x1b[32mHEARTBEAT\x1b[0m (sysid=1, compid=1, custom_mode=4, type=2, autopilot=12, "
          ++ "base_mode=81, system_status=3, mavlink_version=3)\n"))).trans (by decide)
  refine ⟨by decide, h, ?_⟩
  rw [h]
  decide

/-! ## The rendered sequence of a cycle -/

/-- The text of the row loop: for every entry, in order, its rate, a space and the text of
its message. -/
theorem printRows_rates_texts (env : Env) (duration_ms : Int) :
    ∀ (l : List MessageInfo) (rs : List Int) (ts : List String),
      l.map (fun e => rate e.count duration_ms) = rs.map some →
      l.map (fun e => printMessage env e.last_message) = ts.map some →
      printRows env duration_ms l
        = some (concatAll (List.zipWith (fun (r : Int) t => toString r ++ " " ++ t) rs ts)) := by
  intro l
  induction l with
  | nil =>
    intro rs ts hr ht
    cases rs with
    | nil => rfl
    | cons _ _ => simp at hr
  | cons e rest ih =>
    intro rs ts hr ht
    cases rs with
    | nil => simp at hr
    | cons r rs' =>
      cases ts with
      | nil => simp at ht
      | cons t ts' =>
        simp only [List.map_cons, List.cons.injEq] at hr ht
        simp only [printRows, hr.1, ht.1, ih rs' ts' hr.2 ht.2, List.zipWith_cons_cons,
          concatAll, String.append_assoc]

theorem rate_5_1001 : rate 5 1001 = some 5 := by
  simpa using rate_nat 5 1001 (by norm_num) (by norm_num)

theorem messagesSorted_unsortedMap :
    messagesSorted sampleEnv unsortedMap
      = [{ count := 1, last_message := msgB },
          { count := 3, last_message := { msgB with msgid := 33 } },
          { count := 5, last_message := msgA }] := by
  decide

theorem rates_of_unsortedMap :
    (messagesSorted sampleEnv unsortedMap).map (fun e => rate e.count 1001)
      = [1, 3, 5].map some := by
  rw [messagesSorted_unsortedMap]
  simp only [List.map_cons, List.map_nil, rate_1_1001, rate_3_1001, rate_5_1001]

/-- C6: for every sort with the guarantee of `std::sort`, the entries a reporting cycle
renders are a permutation of the drained snapshot whose counts are in non-decreasing
order, whatever the elapsed time, and the text written is the clear-screen sequence
followed, for these entries in this order, by the rate, a space and the text of the
message; counts 5, 1, 3 are rendered in the order 1, 3, 5. -/
theorem rendered_entries_sorted_by_count (env : Env) (h : SortsByCount env.sort)
    (messages : MessageMap) (duration_ms : Int) :
    (reportCycle env duration_ms messages).1
        = (printRows env duration_ms (messagesSorted env messages)).map
            (fun rows => "\x1b[2J\n" ++ rows) ∧
      (messagesSorted env messages).Perm (drain messages).1 ∧
      ((messagesSorted env messages).map (·.count)).Sorted (· ≤ ·) ∧
      (messagesSorted env messages).map (·.count)
        = List.insertionSort (· ≤ ·) ((drain messages).1.map (·.count)) ∧
      ((drain messages).1.map (·.count) = [5, 1, 3] →
        (messagesSorted env messages).map (·.count) = [1, 3, 5]) ∧
      (∀ (rs : List Int) (ts : List String),
        (messagesSorted env messages).map (fun e => rate e.count duration_ms) = rs.map some →
        (messagesSorted env messages).map (fun e => printMessage env e.last_message)
          = ts.map some →
        (reportCycle env duration_ms messages).1
          = some ("\x1b[2J\n" ++ concatAll
              (List.zipWith (fun (r : Int) t => toString r ++ " " ++ t) rs ts))) := by
  have hperm : (messagesSorted env messages).Perm (drain messages).1 := (h _).1
  have hsorted := messagesSorted_counts_sorted env h messages
  have heq : (messagesSorted env messages).map (·.count)
      = List.insertionSort (· ≤ ·) ((drain messages).1.map (·.count)) :=
    List.eq_of_perm_of_sorted
      ((hperm.map _).trans (List.perm_insertionSort _ _).symm) hsorted
      (List.sorted_insertionSort _ _)
  refine ⟨rfl, hperm, hsorted, heq, ?_, ?_⟩
  · intro h513
    rw [heq, h513]
    decide
  · intro rs ts hr ht
    simp only [reportCycle, printRows_rates_texts env duration_ms _ rs ts hr ht,
      Option.map_some']

theorem rendered_entries_sorted_by_count_witness :
    SortsByCount sampleEnv.sort ∧
      (drain unsortedMap).1.map (·.count) = [5, 1, 3] ∧
      (messagesSorted sampleEnv unsortedMap).map (·.count) = [1, 3, 5] ∧
      (reportCycle sampleEnv 1001 unsortedMap).1
        = some ("\x1b[2J\n1 MSGID=30 (sysid=1, compid=1) len=4\n"
          ++ "3 MSGID=33 (sysid=1, compid=1) len=4\n"
          ++ "5 \x1b[32mHEARTBEAT\x1b[0m (sysid=1, compid=1, custom_mode=4, type=2, "
          ++ "autopilot=12, base_mode=81, system_status=3, mavlink_version=3)\n") :=
  ⟨stableSort_sortsByCount, by decide,
    (rendered_entries_sorted_by_count sampleEnv stableSort_sortsByCount unsortedMap
      1001).2.2.2.2.1 (by decide),
    ((rendered_entries_sorted_by_count sampleEnv stableSort_sortsByCount unsortedMap
      1001).2.2.2.2.2 [1, 3, 5]
      ["MSGID=30 (sysid=1, compid=1) len=4\n", "MSGID=33 (sysid=1, compid=1) len=4\n",
        "\x1b[32mHEARTBEAT\x1b[0m (sysid=1, compid=1, custom_mode=4, type=2, "
          ++ "autopilot=12, base_mode=81, system_status=3, mavlink_version=3)\n"]
      rates_of_unsortedMap (by decide)).trans (by decide)⟩

/-! ## Decoding without a check against the length -/

end Inspector
